import Mathlib

/-
Verification of the chunked GridFS storage engine (mongomock gridfs).

The definitions below are a shallow embedding of src/mongomock/gridfs/grid_file.py.
Byte strings are lists of naturals; the backing document store (the mongomock
collection layer is an external collaborator, outside the engine source) is
modelled from the collaborator contract in the specification: insertOne with a
duplicate-key signal under the uniqueness constraints, findOne returning the
first record matching the filter in insertion order, deleteMany and deleteOne.
The md5 digest accumulator is modelled abstractly: the digest of a byte stream
is represented by the stream of bytes fed to the accumulator, since the
hexdigest of hashlib md5 is a pure function of exactly that stream.
-/

/-- Byte sequences are modelled as lists of naturals. -/
abbrev Bytes := List Nat

/-- Ceiling division on naturals; math.ceil of length divided by chunk size in
the Python source (the float detour of the source is exact for the sizes the
engine works with). -/
def ceilDivNat (a b : Nat) : Nat := (a + b - 1) / b

/-- One document of the chunks collection: files_id, n and data, as built by
GridIn.__flush_data. -/
structure ChunkRec where
  filesId : Nat
  n : Nat
  data : Bytes
deriving DecidableEq, Repr

/-- The fields of the files document that the engine itself writes and reads:
_id, chunkSize, and the length and md5 set at finalize (uploadDate carries no
engine logic and is omitted). -/
structure FileDoc where
  id : Nat
  chunkSize : Nat
  length : Nat
  md5 : Bytes
deriving DecidableEq, Repr

/-- The backing document store: the chunks and files collections, each a list
of documents in insertion order. -/
structure Store where
  chunks : List ChunkRec
  files : List FileDoc
deriving DecidableEq, Repr

/-- Modelled from the spec: insertOne on the chunks collection with the
uniqueness constraint on the (fileId, index) pair; none signals the
duplicate-key error. The collection source is outside the engine files. -/
def chunksInsertOne (s : Store) (c : ChunkRec) : Option Store :=
  if s.chunks.any (fun c0 => c0.filesId == c.filesId && c0.n == c.n) then none
  else some { s with chunks := s.chunks ++ [c] }

/-- Modelled from the spec: insertOne on the files collection with the
uniqueness constraint on _id; none signals the duplicate-key error. -/
def filesInsertOne (s : Store) (d : FileDoc) : Option Store :=
  if s.files.any (fun d0 => d0.id == d.id) then none
  else some { s with files := s.files ++ [d] }

/-- Modelled from the spec: findOne on the chunks collection with the exact
filter on files_id and n, returning the first match in insertion order. -/
def chunksFindOne (s : Store) (fid n : Nat) : Option ChunkRec :=
  s.chunks.find? (fun c => c.filesId == fid && c.n == n)

/-- Modelled from the spec: findOne on the chunks collection with the filter
files_id equal and n at least lo, returning the first match in insertion
order; this is the extra-chunk query of GridOut.read. -/
def chunksFindGe (s : Store) (fid lo : Nat) : Option ChunkRec :=
  s.chunks.find? (fun c => c.filesId == fid && lo ≤ c.n)

/-- Modelled from the spec: deleteMany on the chunks collection with the
filter on files_id. -/
def chunksDeleteMany (s : Store) (fid : Nat) : Store :=
  { s with chunks := s.chunks.filter (fun c => !(c.filesId == fid)) }

/-- Modelled from the spec: deleteOne on the files collection with the filter
on _id, removing the first match in insertion order. -/
def filesDeleteOne (s : Store) (fid : Nat) : Store :=
  { s with files := s.files.eraseP (fun d => d.id == fid) }

/-- The structured error taxonomy of the engine. CorruptGridFile messages are
carried structurally: corruptMissing holds the chunk number of the message
"no chunk #n", corruptExtra holds the expected chunk count and the found n of
the message "Extra chunk found: expected i chunks but found chunk with n=j".
sourceError stands for an arbitrary exception raised by a file-like data
source, re-raised by the engine. outOfFuel marks a diverging read loop and is
never produced on the states the theorems cover. -/
inductive GfsError where
  | corruptMissing (n : Nat)
  | corruptTruncated
  | corruptExtra (expected found : Nat)
  | noFile
  | fileExists (id : Nat)
  | writeAfterClose
  | invalidValue
  | assertFailed
  | sourceError
  | outOfFuel
deriving DecidableEq, Repr

/-- The state of a GridIn writer: the store it writes through, the _id and
chunkSize fields of its file document, the md5 accumulator (the byte stream
fed so far), the internal buffer, the byte position, the next chunk number
and the closed flag. -/
structure GridIn where
  store : Store
  fileId : Nat
  chunkSize : Nat
  md5 : Bytes
  buffer : Bytes
  position : Nat
  chunkNumber : Nat
  closed : Bool
deriving DecidableEq, Repr

/-- GridIn.abort: delete every chunk with this files_id, delete the file
document, and mark the writer closed. -/
def GridIn.abort (g : GridIn) : GridIn :=
  { g with
    store := filesDeleteOne (chunksDeleteMany g.store g.fileId) g.fileId,
    closed := true }

/-- GridIn.__flush_data: feed the data to the md5 accumulator; if the data is
empty, stop there; the source then asserts len(data) <= chunk_size and
inserts one chunk document, turning a duplicate-key signal into the
FileExists error; on success the chunk number and position advance. The
result pairs the raised error, if any, with the writer state at that point
(mutations made before a raise persist). -/
def flushData (g : GridIn) (data : Bytes) : Option GfsError × GridIn :=
  let g1 := { g with md5 := g.md5 ++ data }
  if data = [] then (none, g1)
  else if g1.chunkSize < data.length then (some .assertFailed, g1)
  else
    match chunksInsertOne g1.store ⟨g1.fileId, g1.chunkNumber, data⟩ with
    | none => (some (.fileExists g1.fileId), g1)
    | some s =>
        (none, { g1 with
                   store := s,
                   chunkNumber := g1.chunkNumber + 1,
                   position := g1.position + data.length })

/-- GridIn.__flush_buffer: flush the buffer contents and, when no error was
raised, replace the buffer by a fresh empty one. -/
def flushBuffer (g : GridIn) : Option GfsError × GridIn :=
  match flushData g g.buffer with
  | (some e, g1) => (some e, g1)
  | (none, g1) => (none, { g1 with buffer := [] })

/-- GridIn.__flush: flush the buffer, store the finalized md5 digest and the
length in the file document, and insert it into the files collection,
turning a duplicate-key signal into the FileExists error. -/
def GridIn.flush (g : GridIn) : Option GfsError × GridIn :=
  match flushBuffer g with
  | (some e, g1) => (some e, g1)
  | (none, g1) =>
      match filesInsertOne g1.store ⟨g1.fileId, g1.chunkSize, g1.position, g1.md5⟩ with
      | none => (some (.fileExists g1.fileId), g1)
      | some s => (none, { g1 with store := s })

/-- GridIn.close: if not yet closed, flush; the closed flag is set only when
the flush raised no error, exactly as in the source, where the raise skips
the line setting the flag. -/
def GridIn.close (g : GridIn) : Option GfsError × GridIn :=
  if g.closed then (none, g)
  else
    match g.flush with
    | (some e, g1) => (some e, g1)
    | (none, g1) => (none, { g1 with closed := true })

/-- The trailing loop of GridIn.write on a byte-string argument: the source
reads chunk_size bytes at a time from the StringIO wrapper, flushing each
full chunk, and finally writes the short remainder (possibly empty) into the
buffer. When chunk_size is zero, the read returns the empty string at once
and the loop body never runs. -/
def writeTail (g : GridIn) (data : Bytes) : Option GfsError × GridIn :=
  if _hC : g.chunkSize = 0 then (none, g)
  else if _hlt : data.length < g.chunkSize then
    (none, { g with buffer := g.buffer ++ data })
  else
    match _hf : flushData g (data.take g.chunkSize) with
    | (some e, g1) => (some e, g1)
    | (none, g1) => writeTail g1 (data.drop g.chunkSize)
termination_by data.length
decreasing_by
  have hsz : (flushData g (data.take g.chunkSize)).2.chunkSize = g.chunkSize := by
    unfold flushData
    dsimp only
    split
    · rfl
    · split
      · rfl
      · split <;> rfl
  simp only [_hf] at hsz
  simp only [List.length_drop, hsz]
  omega

/-- GridIn.write on a byte-string argument (the file-like branch is
writeSrc below): rejected when closed; when the buffer is not empty, read
just enough to top it up to chunk_size, returning at once when the data ran
out before that, and flush the completed buffer; then run the full-chunk
loop on the rest. -/
def GridIn.write (g : GridIn) (data : Bytes) : Option GfsError × GridIn :=
  if g.closed then (some .writeAfterClose, g)
  else if g.buffer.length ≠ 0 then
    let space := g.chunkSize - g.buffer.length
    if space ≠ 0 then
      let toW := data.take space
      let g1 := { g with buffer := g.buffer ++ toW }
      if toW.length < space then (none, g1)
      else
        match flushBuffer g1 with
        | (some e, g2) => (some e, g2)
        | (none, g2) => writeTail g2 (data.drop space)
    else
      match flushBuffer g with
      | (some e, g2) => (some e, g2)
      | (none, g2) => writeTail g2 data
  else writeTail g data

/-- Sequential write calls, stopping at the first raised error. -/
def writeAll (g : GridIn) (parts : List Bytes) : Option GfsError × GridIn :=
  match parts with
  | [] => (none, g)
  | p :: ps =>
      match g.write p with
      | (some e, g1) => (some e, g1)
      | (none, g1) => writeAll g1 ps

/-- A file-like data source, as the successive responses of its read method:
some bs is a call returning the bytes bs, none is a call raising an
exception. An exhausted list responds with empty bytes, as a drained file
does. -/
abbrev Src := List (Option Bytes)

/-- The trailing loop of GridIn.write on a file-like source: read chunk_size
bytes at a time; a raise from the source propagates with no cleanup; the loop
flushes each response that is exactly chunk_size bytes long and not empty,
and the first other response is written into the buffer and ends the call. -/
def writeSrcTail (g : GridIn) (src : Src) : Option GfsError × GridIn :=
  match src with
  | [] => (none, { g with buffer := g.buffer ++ [] })
  | none :: _ => (some .sourceError, g)
  | some bs :: rest =>
      if bs.length = 0 ∨ bs.length ≠ g.chunkSize then
        (none, { g with buffer := g.buffer ++ bs })
      else
        match flushData g bs with
        | (some e, g1) => (some e, g1)
        | (none, g1) => writeSrcTail g1 rest

/-- GridIn.write on a file-like argument: rejected when closed; when the
buffer is not empty and short of chunk_size, the top-up read is guarded:
a raise from the source triggers abort before the exception propagates;
after the top-up the completed buffer is flushed and the full-chunk loop
runs, where source raises propagate with no abort. -/
def GridIn.writeSrc (g : GridIn) (src : Src) : Option GfsError × GridIn :=
  if g.closed then (some .writeAfterClose, g)
  else if g.buffer.length ≠ 0 then
    let space := g.chunkSize - g.buffer.length
    if space ≠ 0 then
      match src with
      | [] => (none, { g with buffer := g.buffer ++ [] })
      | none :: _ => (some .sourceError, g.abort)
      | some bs :: rest =>
          let g1 := { g with buffer := g.buffer ++ bs }
          if bs.length < space then (none, g1)
          else
            match flushBuffer g1 with
            | (some e, g2) => (some e, g2)
            | (none, g2) => writeSrcTail g2 rest
    else
      match flushBuffer g with
      | (some e, g2) => (some e, g2)
      | (none, g2) => writeSrcTail g2 src
  else writeSrcTail g src

/-- A freshly constructed GridIn over a store: empty buffer, empty md5
stream, position and chunk number zero, not closed. -/
def freshWriter (s : Store) (fid c : Nat) : GridIn :=
  ⟨s, fid, c, [], [], 0, 0, false⟩

/-- Write a list of byte strings through a fresh writer and close it. -/
def upload (s : Store) (fid c : Nat) (parts : List Bytes) : Option GfsError × GridIn :=
  match writeAll (freshWriter s fid c) parts with
  | (some e, g) => (some e, g)
  | (none, g) => g.close

/-- The state of a GridOut reader constructed with an already resolved file
document: the store, the file document, the look-ahead buffer and the byte
position. -/
structure GridOut where
  store : Store
  fileDoc : FileDoc
  buffer : Bytes
  position : Nat
deriving DecidableEq, Repr

/-- GridOut.readchunk: when the buffer holds bytes, return it whole; when the
position is short of the declared length, fetch the chunk at index position
divided by chunk_size, raising the missing-chunk corruption error when the
store has no such record, slice off the consumed leading bytes, and raise the
truncated-chunk corruption error when nothing is left; the position advances
by the returned byte count and the buffer empties. -/
def GridOut.readchunk (g : GridOut) : Except GfsError (Bytes × GridOut) :=
  let c := g.fileDoc.chunkSize
  if g.buffer.length > 0 then
    .ok (g.buffer, { g with position := g.position + g.buffer.length, buffer := [] })
  else if g.position < g.fileDoc.length then
    let cn := g.position / c
    match chunksFindOne g.store g.fileDoc.id cn with
    | none => .error (.corruptMissing cn)
    | some ch =>
        let cd := ch.data.drop (g.position % c)
        if cd.length = 0 then .error .corruptTruncated
        else .ok (cd, { g with position := g.position + cd.length, buffer := [] })
  else .ok ([], { g with buffer := [] })

/-- The chunk-fetch loop of GridOut.read: fetch chunks while the received
byte count is short of the target, accumulating the data. The Python loop
has no fuel; the callers pass fuel at least the target, which suffices since
each productive step adds at least one byte, and outOfFuel marks the states
where the source loop would not terminate. -/
def readLoop (g : GridOut) (szI : Int) (received : Nat) (acc : Bytes) (fuel : Nat) :
    Except GfsError (GridOut × Nat × Bytes) :=
  if (received : Int) < szI then
    match fuel with
    | 0 => .error .outOfFuel
    | fuel' + 1 =>
        match g.readchunk with
        | .error e => .error e
        | .ok (cd, g1) => readLoop g1 szI (received + cd.length) (acc ++ cd) fuel'
  else .ok (g, received, acc)

/-- The trailing lines shared by GridOut.read and GridOut.readline: seek the
accumulated data to the final size, which raises a ValueError when that size
is negative, keep the bytes past it as the look-ahead buffer, rewind the
position by the over-read amount, and return the leading bytes. -/
def readFinish (g : GridOut) (szI : Int) (received : Nat) (acc : Bytes) :
    Except GfsError (Bytes × GridOut) :=
  if szI < 0 then .error .invalidValue
  else
    let szN := szI.toNat
    .ok (acc.take szN,
         { g with
             position := ((g.position : Int) - (received : Int) + szI).toNat,
             buffer := acc.drop szN })

/-- GridOut.read: a zero size returns empty bytes at once; otherwise the size
is clamped to the remaining byte count when negative or too large, the chunk
loop runs, and then, on every such call, the extra-chunk query looks for a
chunk at an index at least the ceiling of length over chunk_size, raising
the corruption error naming the expected count and the found index when such
a chunk exists and its data is not empty. -/
def GridOut.read (g : GridOut) (size : Int) : Except GfsError (Bytes × GridOut) :=
  if size = 0 then .ok ([], g)
  else
    let rem : Int := (g.fileDoc.length : Int) - (g.position : Int)
    let szI : Int := if size < 0 ∨ rem < size then rem else size
    match readLoop g szI 0 [] (szI.toNat + 1) with
    | .error e => .error e
    | .ok (g1, received, acc) =>
        let maxN := ceilDivNat g.fileDoc.length g.fileDoc.chunkSize
        match chunksFindGe g1.store g.fileDoc.id maxN with
        | some ch =>
            if ch.data.length ≠ 0 then .error (.corruptExtra maxN ch.n)
            else readFinish g1 szI received acc
        | none => readFinish g1 szI received acc

/-- The newline search of GridOut.readline: the index of the first newline
byte among the leading bound bytes of the fetched chunk data, as
chunk_data.find of the newline byte bounded by the current size. -/
def findNL (cd : Bytes) (bound : Int) : Option Nat :=
  (cd.take bound.toNat).findIdx? (fun b => b == 10)

/-- The chunk-fetch loop of GridOut.readline: like readLoop, but each fetched
chunk is searched for a newline among its leading size bytes; a hit shrinks
the size to end just past the newline and breaks the loop. The returned size
is the possibly shrunk one. -/
def readlineLoop (g : GridOut) (szI : Int) (received : Nat) (acc : Bytes) (fuel : Nat) :
    Except GfsError (GridOut × Int × Nat × Bytes) :=
  if (received : Int) < szI then
    match fuel with
    | 0 => .error .outOfFuel
    | fuel' + 1 =>
        match g.readchunk with
        | .error e => .error e
        | .ok (cd, g1) =>
            match findNL cd szI with
            | some p =>
                .ok (g1, ((received + p + 1 : Nat) : Int), received + cd.length, acc ++ cd)
            | none => readlineLoop g1 szI (received + cd.length) (acc ++ cd) fuel'
  else .ok (g, szI, received, acc)

/-- GridOut.readline: the size is clamped exactly as in read, the newline
loop runs, and the shared trailing lines return the leading bytes up to the
final size. There is no extra-chunk query on this path. -/
def GridOut.readline (g : GridOut) (size : Int) : Except GfsError (Bytes × GridOut) :=
  if size = 0 then .ok ([], g)
  else
    let rem : Int := (g.fileDoc.length : Int) - (g.position : Int)
    let szI : Int := if size < 0 ∨ rem < size then rem else size
    match readlineLoop g szI 0 [] (szI.toNat + 1) with
    | .error e => .error e
    | .ok (g1, szI2, received, acc) => readFinish g1 szI2 received acc

/-- The three whence values of GridOut.seek. -/
inductive Whence where
  | set
  | cur
  | endPos
deriving DecidableEq, Repr

/-- GridOut.seek: compute the target position from the whence mode, raise the
invalid-value error when it is negative, and otherwise move there and discard
the look-ahead buffer. -/
def GridOut.seek (g : GridOut) (pos : Int) (whence : Whence) : Except GfsError GridOut :=
  let newPos : Int :=
    match whence with
    | .set => pos
    | .cur => (g.position : Int) + pos
    | .endPos => (g.fileDoc.length : Int) + pos
  if newPos < 0 then .error .invalidValue
  else .ok { g with position := newPos.toNat, buffer := [] }

/-- GridOut.tell: the current position, a pure accessor. -/
def GridOut.tell (g : GridOut) : Nat := g.position

/-- The canonical chunk records of byte string b at chunk size c, indexed
from i: the successive blocks of c bytes in order, the last one possibly
shorter. The writer is proved below to persist exactly these records. -/
def canonFrom (fid c i : Nat) (b : Bytes) : List ChunkRec :=
  if _h : c = 0 ∨ b = [] then []
  else ⟨fid, i, b.take c⟩ :: canonFrom fid c (i + 1) (b.drop c)
termination_by b.length
decreasing_by
  simp only [List.length_drop]
  rcases not_or.mp _h with ⟨h1, h2⟩
  have : 0 < b.length := List.length_pos.mpr h2
  omega

theorem canonFrom_nil (fid c i : Nat) : canonFrom fid c i [] = [] := by
  unfold canonFrom
  simp

theorem canonFrom_zeroC (fid i : Nat) (b : Bytes) : canonFrom fid 0 i b = [] := by
  unfold canonFrom
  simp

theorem canonFrom_cons (fid c i : Nat) (b : Bytes) (hc : c ≠ 0) (hb : b ≠ []) :
    canonFrom fid c i b = ⟨fid, i, b.take c⟩ :: canonFrom fid c (i + 1) (b.drop c) := by
  conv_lhs => rw [canonFrom]
  simp [hc, hb]

theorem ceilDivNat_zero (c : Nat) : ceilDivNat 0 c = 0 := by
  unfold ceilDivNat
  rcases c with _ | c
  · rfl
  · apply Nat.div_eq_of_lt
    omega

theorem ceilDivNat_step (n c : Nat) (hc : 0 < c) (hn : 0 < n) :
    ceilDivNat n c = ceilDivNat (n - c) c + 1 := by
  unfold ceilDivNat
  rcases le_or_lt n c with h | h
  · have h1 : n + c - 1 = (n - 1) + c := by omega
    have h2 : n - c = 0 := by omega
    rw [h1, h2, Nat.add_div_right _ hc]
    have h3 : (n - 1) / c = 0 := Nat.div_eq_of_lt (by omega)
    have h4 : (0 + c - 1) / c = 0 := Nat.div_eq_of_lt (by omega)
    omega
  · have h1 : n + c - 1 = (n - c + c - 1) + c := by omega
    rw [h1, Nat.add_div_right _ hc]

theorem ceilDivNat_mul (c k : Nat) (hc : 0 < c) : ceilDivNat (c * k) c = k := by
  unfold ceilDivNat
  rcases k with _ | k
  · rw [Nat.mul_zero]
    apply Nat.div_eq_of_lt
    omega
  · have h1 : c * (k + 1) + c - 1 = (c - 1) + (k + 1) * c := by ring_nf; omega
    rw [h1, Nat.add_mul_div_right _ _ hc, Nat.div_eq_of_lt (by omega)]
    omega

theorem ceilDivNat_le_of_le {a b c : Nat} (h : a ≤ b) : ceilDivNat a c ≤ ceilDivNat b c := by
  unfold ceilDivNat
  exact Nat.div_le_div_right (by omega)

theorem canonFrom_length (fid c : Nat) (hc : 0 < c) (i : Nat) (b : Bytes) :
    (canonFrom fid c i b).length = ceilDivNat b.length c := by
  by_cases hb : b = []
  · subst hb
    simp [canonFrom_nil, ceilDivNat_zero]
  · rw [canonFrom_cons fid c i b (by omega) hb]
    have hlen : 0 < b.length := List.length_pos.mpr hb
    have ih := canonFrom_length fid c hc (i + 1) (b.drop c)
    simp only [List.length_cons, ih, List.length_drop]
    rw [ceilDivNat_step b.length c hc hlen]
termination_by b.length
decreasing_by
  simp only [List.length_drop]
  have : 0 < b.length := List.length_pos.mpr hb
  omega

theorem canonFrom_mem_n (fid c i : Nat) (b : Bytes) (r : ChunkRec)
    (hr : r ∈ canonFrom fid c i b) :
    r.filesId = fid ∧ i ≤ r.n ∧ r.n < i + (canonFrom fid c i b).length := by
  by_cases hb : b = []
  · subst hb
    rw [canonFrom_nil] at hr
    exact absurd hr (List.not_mem_nil r)
  · by_cases hc : c = 0
    · subst hc
      rw [canonFrom_zeroC] at hr
      exact absurd hr (List.not_mem_nil r)
    · rw [canonFrom_cons fid c i b hc hb] at hr
      rw [canonFrom_cons fid c i b hc hb]
      rcases List.mem_cons.mp hr with h | h
      · subst h
        simp
      · have ih := canonFrom_mem_n fid c (i + 1) (b.drop c) r h
        simp only [List.length_cons]
        omega
termination_by b.length
decreasing_by
  simp only [List.length_drop]
  have : 0 < b.length := List.length_pos.mpr hb
  omega

theorem canonFrom_getElem? (fid c : Nat) (hc : 0 < c) (i : Nat) (b : Bytes) (j : Nat)
    (hj : j < (canonFrom fid c i b).length) :
    (canonFrom fid c i b)[j]? = some ⟨fid, i + j, (b.drop (c * j)).take c⟩ := by
  by_cases hb : b = []
  · subst hb
    rw [canonFrom_nil] at hj
    simp at hj
  · rw [canonFrom_cons fid c i b (by omega) hb] at hj ⊢
    rcases j with _ | j
    · simp
    · have ih := canonFrom_getElem? fid c hc (i + 1) (b.drop c) j (by
        simp only [List.length_cons] at hj
        omega)
      simp only [List.getElem?_cons_succ, ih, List.drop_drop]
      have harith : c + c * j = c * (j + 1) := by ring
      have hidx : i + 1 + j = i + (j + 1) := by omega
      rw [harith, hidx]
termination_by b.length
decreasing_by
  simp only [List.length_drop]
  have : 0 < b.length := List.length_pos.mpr hb
  omega

theorem canonFrom_append_block (fid c : Nat) (hc : 0 < c) (i : Nat) (F b : Bytes)
    (hdvd : c ∣ F.length) (hb0 : 0 < b.length) (hbc : b.length ≤ c) :
    canonFrom fid c i (F ++ b) =
      canonFrom fid c i F ++ [⟨fid, i + F.length / c, b⟩] := by
  by_cases hF : F = []
  · subst hF
    rw [List.nil_append]
    rw [canonFrom_cons fid c i b (by omega) (by
      intro h
      rw [h] at hb0
      simp at hb0)]
    rw [List.take_of_length_le hbc, List.drop_eq_nil_of_le hbc, canonFrom_nil, canonFrom_nil]
    simp
  · obtain ⟨k, hk⟩ := hdvd
    have hklen : 0 < F.length := List.length_pos.mpr hF
    have hkpos : 0 < k := by
      rcases Nat.eq_zero_or_pos k with h0 | h0
      · rw [h0, Nat.mul_zero] at hk
        omega
      · exact h0
    have hcF : c ≤ F.length := by
      have h1 : c * 1 ≤ c * k := Nat.mul_le_mul_left c hkpos
      rw [Nat.mul_one] at h1
      omega
    have hFb : F ++ b ≠ [] := by
      intro h
      have h2 : (F ++ b).length = 0 := by
        rw [h]
        rfl
      rw [List.length_append] at h2
      omega
    rw [canonFrom_cons fid c i (F ++ b) (by omega) hFb]
    rw [canonFrom_cons fid c i F (by omega) hF]
    rw [List.take_append_eq_append_take,
        Nat.sub_eq_zero_of_le hcF, List.take_zero, List.append_nil]
    rw [List.drop_append_eq_append_drop, Nat.sub_eq_zero_of_le hcF, List.drop_zero]
    have hdvd2 : c ∣ (F.drop c).length := by
      rw [List.length_drop, hk]
      refine ⟨k - 1, ?_⟩
      rw [Nat.mul_sub_one]
    have ih := canonFrom_append_block fid c hc (i + 1) (F.drop c) b hdvd2 hb0 hbc
    rw [ih]
    simp only [List.cons_append, List.length_drop]
    have hdivs : i + 1 + (F.length - c) / c = i + F.length / c := by
      rw [hk]
      have h1 : c * k - c = c * (k - 1) := by
        rw [Nat.mul_sub_one]
      rw [h1, Nat.mul_div_cancel_left _ hc, Nat.mul_div_cancel_left _ hc]
      omega
    rw [hdivs]
termination_by F.length
decreasing_by
  simp only [List.length_drop]
  omega

/-- Freshness of a store for a file id: no chunk record and no file document
with that id is present yet. -/
def FreshFor (s : Store) (fid : Nat) : Prop :=
  (∀ r ∈ s.chunks, r.filesId ≠ fid) ∧ (∀ d ∈ s.files, d.id ≠ fid)

instance (s : Store) (fid : Nat) : Decidable (FreshFor s fid) := by
  unfold FreshFor
  infer_instance

/-- The persistent-state part of the open-writer invariant: F is the byte
string flushed so far, a whole number of chunks each of size c. -/
structure WCore (init : Store) (fid c : Nat) (F : Bytes) (g : GridIn) : Prop where
  hc : 0 < c
  hfid : g.fileId = fid
  hcs : g.chunkSize = c
  hmd5 : g.md5 = F
  hpos : g.position = F.length
  hnum : g.chunkNumber = F.length / c
  hclosed : g.closed = false
  hfiles : g.store.files = init.files
  hchunks : g.store.chunks = init.chunks ++ canonFrom fid c 0 F
  hdvd : c ∣ F.length

/-- The full open-writer invariant: additionally R, the buffered remainder,
is shorter than one chunk. -/
structure WInv (init : Store) (fid c : Nat) (F R : Bytes) (g : GridIn) extends
    WCore init fid c F g : Prop where
  hbuf : g.buffer = R
  hrlt : R.length < c

theorem chunksInsertOne_canon (s init : Store) (fid c : Nat) (hc : 0 < c) (F b : Bytes)
    (hch : s.chunks = init.chunks ++ canonFrom fid c 0 F)
    (hfr : ∀ r ∈ init.chunks, r.filesId ≠ fid) (hdvd : c ∣ F.length) :
    chunksInsertOne s ⟨fid, F.length / c, b⟩ =
      some { s with chunks := init.chunks ++ canonFrom fid c 0 F ++
        [⟨fid, F.length / c, b⟩] } := by
  have hno : ((init.chunks ++ canonFrom fid c 0 F).any
      (fun c0 => c0.filesId == fid && c0.n == F.length / c)) = false := by
    rw [List.any_eq_false]
    intro r hmem hp
    simp only [Bool.and_eq_true, beq_iff_eq] at hp
    obtain ⟨hrfid, hrn⟩ := hp
    rcases List.mem_append.mp hmem with h | h
    · exact hfr r h hrfid
    · obtain ⟨k, hk⟩ := hdvd
      have hmn := canonFrom_mem_n fid c 0 F r h
      rw [canonFrom_length fid c hc 0 F, hk, ceilDivNat_mul c k hc] at hmn
      rw [hk, Nat.mul_div_cancel_left _ hc] at hrn
      omega
  unfold chunksInsertOne
  dsimp only
  rw [hch, hno]
  simp

theorem filesInsertOne_fresh (s : Store) (dd : FileDoc)
    (hff : ∀ d0 ∈ s.files, d0.id ≠ dd.id) :
    filesInsertOne s dd = some { s with files := s.files ++ [dd] } := by
  have hno : (s.files.any (fun d0 => d0.id == dd.id)) = false := by
    rw [List.any_eq_false]
    intro r hmem hp
    rw [beq_iff_eq] at hp
    exact hff r hmem hp
  unfold filesInsertOne
  rw [hno]
  simp

theorem flushData_block (init : Store) (fid c : Nat) (F b : Bytes) (g : GridIn)
    (core : WCore init fid c F g)
    (hfr : ∀ r ∈ init.chunks, r.filesId ≠ fid)
    (hb0 : b ≠ []) (hbc : b.length ≤ c) :
    flushData g b =
      (none, { g with
                 store := { g.store with
                              chunks := init.chunks ++ canonFrom fid c 0 F ++
                                [⟨fid, F.length / c, b⟩] },
                 md5 := F ++ b,
                 chunkNumber := F.length / c + 1,
                 position := F.length + b.length }) := by
  have hcs := core.hcs
  unfold flushData
  dsimp only
  rw [if_neg hb0]
  rw [if_neg (show ¬ g.chunkSize < b.length by rw [hcs]; omega)]
  rw [core.hfid, core.hnum, core.hmd5, core.hpos]
  rw [chunksInsertOne_canon g.store init fid c core.hc F b core.hchunks hfr core.hdvd]

theorem flushData_empty (g : GridIn) : flushData g [] = (none, g) := by
  unfold flushData
  simp

theorem flushBuffer_emptybuf (g : GridIn) (hb : g.buffer = []) :
    flushBuffer g = (none, { g with buffer := [] }) := by
  unfold flushBuffer
  rw [hb, flushData_empty]

theorem writeTail_inv (init : Store) (fid c : Nat) (F : Bytes) (g : GridIn) (d : Bytes)
    (inv : WInv init fid c F [] g)
    (hfr : ∀ r ∈ init.chunks, r.filesId ≠ fid) :
    ∃ F2 R2 g2, writeTail g d = (none, g2) ∧ WInv init fid c F2 R2 g2 ∧ F2 ++ R2 = F ++ d := by
  have hc := inv.hc
  have hcs := inv.hcs
  have hn0 : ¬ (g.chunkSize = 0) := by
    rw [hcs]
    omega
  by_cases hlt : d.length < c
  · refine ⟨F, d, { g with buffer := g.buffer ++ d }, ?_, ?_, rfl⟩
    · conv_lhs => rw [writeTail]
      rw [dif_neg hn0, dif_pos (show d.length < g.chunkSize by rw [hcs]; exact hlt)]
    · refine ⟨⟨hc, inv.hfid, inv.hcs, inv.hmd5, inv.hpos, inv.hnum, inv.hclosed,
        inv.hfiles, inv.hchunks, inv.hdvd⟩, ?_, hlt⟩
      show g.buffer ++ d = d
      rw [inv.hbuf]
      simp
  · have htlen : (d.take c).length = c := by
      rw [List.length_take]
      omega
    have hstep := flushData_block init fid c F (d.take c) g inv.toWCore hfr
      (by
        intro h
        rw [h] at htlen
        simp at htlen
        omega)
      (by omega)
    have hinv2 : WInv init fid c (F ++ d.take c) []
        { g with
            store := { g.store with
                         chunks := init.chunks ++ canonFrom fid c 0 F ++
                           [⟨fid, F.length / c, d.take c⟩] },
            md5 := F ++ d.take c,
            chunkNumber := F.length / c + 1,
            position := F.length + (d.take c).length } := by
      refine ⟨⟨hc, inv.hfid, inv.hcs, rfl, ?_, ?_, inv.hclosed, inv.hfiles, ?_, ?_⟩,
        ?_, hc⟩
      · show F.length + (d.take c).length = (F ++ d.take c).length
        simp
      · show F.length / c + 1 = (F ++ d.take c).length / c
        rw [List.length_append, htlen, Nat.add_div_right _ hc]
      · show init.chunks ++ canonFrom fid c 0 F ++ [⟨fid, F.length / c, d.take c⟩] =
          init.chunks ++ canonFrom fid c 0 (F ++ d.take c)
        rw [canonFrom_append_block fid c hc 0 F (d.take c) inv.hdvd (by omega) (by omega)]
        simp [List.append_assoc]
      · show c ∣ (F ++ d.take c).length
        rw [List.length_append, htlen]
        exact Dvd.dvd.add inv.hdvd dvd_rfl
      · exact inv.hbuf
    obtain ⟨F2, R2, g2, heq, hinv3, hsum⟩ :=
      writeTail_inv init fid c (F ++ d.take c) _ (d.drop c) hinv2 hfr
    refine ⟨F2, R2, g2, ?_, hinv3, ?_⟩
    · conv_lhs => rw [writeTail]
      rw [dif_neg hn0,
          dif_neg (show ¬ d.length < g.chunkSize by rw [hcs]; exact hlt)]
      rw [hcs, hstep]
      exact heq
    · rw [hsum, List.append_assoc, List.take_append_drop]
termination_by d.length
decreasing_by
  simp only [List.length_drop]
  omega

theorem write_inv (init : Store) (fid c : Nat) (F R : Bytes) (g : GridIn) (d : Bytes)
    (inv : WInv init fid c F R g)
    (hfr : ∀ r ∈ init.chunks, r.filesId ≠ fid) :
    ∃ F2 R2 g2, g.write d = (none, g2) ∧ WInv init fid c F2 R2 g2 ∧
      F2 ++ R2 = (F ++ R) ++ d := by
  have hc := inv.hc
  have hcs := inv.hcs
  have hbuf := inv.hbuf
  have hrlt := inv.hrlt
  have hncl : ¬ (g.closed = true) := by
    rw [inv.hclosed]
    simp
  by_cases hR : R = []
  · subst hR
    obtain ⟨F2, R2, g2, heq, hinv2, hsum⟩ := writeTail_inv init fid c F g d inv hfr
    refine ⟨F2, R2, g2, ?_, hinv2, ?_⟩
    · unfold GridIn.write
      rw [if_neg hncl, if_neg (show ¬ g.buffer.length ≠ 0 by rw [hbuf]; simp)]
      exact heq
    · rw [hsum]
      simp
  · have hR0 : 0 < R.length := List.length_pos.mpr hR
    have htrue : g.buffer.length ≠ 0 := by
      rw [hbuf]
      omega
    by_cases hd : d.length < c - R.length
    · refine ⟨F, R ++ d, { g with buffer := R ++ d }, ?_, ?_, ?_⟩
      · unfold GridIn.write
        rw [if_neg hncl, if_pos htrue]
        dsimp only
        rw [hcs, hbuf]
        rw [if_pos (show c - R.length ≠ 0 by omega)]
        rw [if_pos (show (d.take (c - R.length)).length < c - R.length by
          rw [List.length_take]
          omega)]
        rw [List.take_of_length_le (by omega : d.length ≤ c - R.length)]
      · refine ⟨⟨hc, inv.hfid, inv.hcs, inv.hmd5, inv.hpos, inv.hnum, inv.hclosed,
          inv.hfiles, inv.hchunks, inv.hdvd⟩, rfl, ?_⟩
        rw [List.length_append]
        omega
      · rw [List.append_assoc]
    · have htklen : (d.take (c - R.length)).length = c - R.length := by
        rw [List.length_take]
        omega
      have core1 : WCore init fid c F
          ⟨g.store, g.fileId, c, g.md5, R ++ d.take (c - R.length), g.position,
            g.chunkNumber, g.closed⟩ :=
        ⟨hc, inv.hfid, rfl, inv.hmd5, inv.hpos, inv.hnum, inv.hclosed,
          inv.hfiles, inv.hchunks, inv.hdvd⟩
      have hflush := flushData_block init fid c F (R ++ d.take (c - R.length))
        ⟨g.store, g.fileId, c, g.md5, R ++ d.take (c - R.length), g.position,
          g.chunkNumber, g.closed⟩ core1 hfr
        (by
          intro h
          rcases List.append_eq_nil.mp h with ⟨h1, h2⟩
          exact hR h1)
        (by
          rw [List.length_append, htklen]
          omega)
      have hfb : flushBuffer ⟨g.store, g.fileId, c, g.md5,
          R ++ d.take (c - R.length), g.position, g.chunkNumber, g.closed⟩ =
          (none, ⟨⟨init.chunks ++ canonFrom fid c 0 F ++
              [⟨fid, F.length / c, R ++ d.take (c - R.length)⟩], g.store.files⟩,
            g.fileId, c, F ++ (R ++ d.take (c - R.length)), [],
            F.length + (R ++ d.take (c - R.length)).length, F.length / c + 1,
            g.closed⟩) := by
        unfold flushBuffer
        dsimp only
        rw [hflush]
      have hblen : (R ++ d.take (c - R.length)).length = c := by
        rw [List.length_append, htklen]
        omega
      have hinv2 : WInv init fid c (F ++ (R ++ d.take (c - R.length))) []
          ⟨⟨init.chunks ++ canonFrom fid c 0 F ++
              [⟨fid, F.length / c, R ++ d.take (c - R.length)⟩], g.store.files⟩,
            g.fileId, c, F ++ (R ++ d.take (c - R.length)), [],
            F.length + (R ++ d.take (c - R.length)).length, F.length / c + 1,
            g.closed⟩ := by
        refine ⟨⟨hc, inv.hfid, rfl, rfl, ?_, ?_, inv.hclosed, inv.hfiles, ?_, ?_⟩,
          rfl, hc⟩
        · show F.length + (R ++ d.take (c - R.length)).length =
            (F ++ (R ++ d.take (c - R.length))).length
          simp
        · show F.length / c + 1 = (F ++ (R ++ d.take (c - R.length))).length / c
          rw [List.length_append, hblen, Nat.add_div_right _ hc]
        · show init.chunks ++ canonFrom fid c 0 F ++
              [⟨fid, F.length / c, R ++ d.take (c - R.length)⟩] =
            init.chunks ++ canonFrom fid c 0 (F ++ (R ++ d.take (c - R.length)))
          rw [canonFrom_append_block fid c hc 0 F (R ++ d.take (c - R.length)) inv.hdvd
            (by omega) (by omega)]
          simp [List.append_assoc]
        · show c ∣ (F ++ (R ++ d.take (c - R.length))).length
          rw [List.length_append, hblen]
          exact Dvd.dvd.add inv.hdvd dvd_rfl
      obtain ⟨F2, R2, g2, heq, hinv3, hsum⟩ :=
        writeTail_inv init fid c (F ++ (R ++ d.take (c - R.length))) _
          (d.drop (c - R.length)) hinv2 hfr
      refine ⟨F2, R2, g2, ?_, hinv3, ?_⟩
      · unfold GridIn.write
        rw [if_neg hncl, if_pos htrue]
        dsimp only
        rw [hcs, hbuf]
        rw [if_pos (show c - R.length ≠ 0 by omega)]
        rw [if_neg (show ¬ (d.take (c - R.length)).length < c - R.length by
          rw [htklen]
          omega)]
        rw [hfb]
        exact heq
      · rw [hsum]
        simp only [List.append_assoc]
        rw [List.take_append_drop]

theorem flushBuffer_inv (init : Store) (fid c : Nat) (F R : Bytes) (g : GridIn)
    (inv : WInv init fid c F R g)
    (hfr : ∀ r ∈ init.chunks, r.filesId ≠ fid) :
    ∃ gb, flushBuffer g = (none, gb) ∧
      gb.store.chunks = init.chunks ++ canonFrom fid c 0 (F ++ R) ∧
      gb.store.files = init.files ∧
      gb.fileId = fid ∧ gb.chunkSize = c ∧
      gb.md5 = F ++ R ∧ gb.position = (F ++ R).length ∧
      gb.closed = false := by
  by_cases hR : R = []
  · subst hR
    refine ⟨{ g with buffer := [] }, flushBuffer_emptybuf g inv.hbuf, ?_, ?_, ?_, ?_, ?_, ?_, ?_⟩
    · show g.store.chunks = init.chunks ++ canonFrom fid c 0 (F ++ [])
      rw [List.append_nil]
      exact inv.hchunks
    · exact inv.hfiles
    · exact inv.hfid
    · exact inv.hcs
    · show g.md5 = F ++ []
      rw [List.append_nil]
      exact inv.hmd5
    · show g.position = (F ++ []).length
      rw [List.append_nil]
      exact inv.hpos
    · exact inv.hclosed
  · have hR0 : 0 < R.length := List.length_pos.mpr hR
    have hflush := flushData_block init fid c F R g inv.toWCore hfr hR
      (Nat.le_of_lt inv.hrlt)
    have hfb : flushBuffer g =
        (none, { g with
                   store := { g.store with
                                chunks := init.chunks ++ canonFrom fid c 0 F ++
                                  [⟨fid, F.length / c, R⟩] },
                   md5 := F ++ R,
                   chunkNumber := F.length / c + 1,
                   position := F.length + R.length,
                   buffer := [] }) := by
      unfold flushBuffer
      rw [inv.hbuf, hflush]
    refine ⟨_, hfb, ?_, ?_, ?_, ?_, rfl, ?_, ?_⟩
    · show init.chunks ++ canonFrom fid c 0 F ++ [⟨fid, F.length / c, R⟩] =
        init.chunks ++ canonFrom fid c 0 (F ++ R)
      rw [canonFrom_append_block fid c inv.hc 0 F R inv.hdvd hR0 (Nat.le_of_lt inv.hrlt)]
      simp [List.append_assoc]
    · exact inv.hfiles
    · exact inv.hfid
    · exact inv.hcs
    · show F.length + R.length = (F ++ R).length
      simp
    · exact inv.hclosed

theorem close_inv (init : Store) (fid c : Nat) (F R : Bytes) (g : GridIn)
    (inv : WInv init fid c F R g)
    (hfr : ∀ r ∈ init.chunks, r.filesId ≠ fid)
    (hff : ∀ d0 ∈ init.files, d0.id ≠ fid) :
    ∃ g2, g.close = (none, g2) ∧
      g2.store.chunks = init.chunks ++ canonFrom fid c 0 (F ++ R) ∧
      g2.store.files = init.files ++ [⟨fid, c, (F ++ R).length, F ++ R⟩] ∧
      g2.closed = true := by
  obtain ⟨gb, hfb, hch, hfl, hfid, hcs, hmd5, hpos, hcl⟩ :=
    flushBuffer_inv init fid c F R g inv hfr
  have hff2 : ∀ d0 ∈ gb.store.files,
      d0.id ≠ (⟨fid, c, (F ++ R).length, F ++ R⟩ : FileDoc).id := by
    rw [hfl]
    intro d0 hmem
    exact hff d0 hmem
  have hins := filesInsertOne_fresh gb.store ⟨fid, c, (F ++ R).length, F ++ R⟩ hff2
  have hflush : g.flush =
      (none, { gb with store := { gb.store with
          files := gb.store.files ++ [⟨fid, c, (F ++ R).length, F ++ R⟩] } }) := by
    unfold GridIn.flush
    rw [hfb]
    dsimp only
    rw [hfid, hcs, hpos, hmd5, hins]
  refine ⟨{ { gb with store := { gb.store with
      files := gb.store.files ++ [(⟨fid, c, (F ++ R).length, F ++ R⟩ : FileDoc)] } } with
      closed := true }, ?_, ?_, ?_, rfl⟩
  · unfold GridIn.close
    rw [if_neg (show ¬ g.closed = true by rw [inv.hclosed]; simp), hflush]
  · exact hch
  · show gb.store.files ++ [⟨fid, c, (F ++ R).length, F ++ R⟩] =
      init.files ++ [⟨fid, c, (F ++ R).length, F ++ R⟩]
    rw [hfl]

theorem freshWriter_inv (s : Store) (fid c : Nat) (hc : 0 < c) :
    WInv s fid c [] [] (freshWriter s fid c) := by
  refine ⟨⟨hc, rfl, rfl, rfl, rfl, ?_, rfl, rfl, ?_, ?_⟩, rfl, hc⟩
  · show 0 = ([] : Bytes).length / c
    simp
  · show s.chunks = s.chunks ++ canonFrom fid c 0 []
    rw [canonFrom_nil, List.append_nil]
  · show c ∣ ([] : Bytes).length
    simp

theorem writeAll_inv (init : Store) (fid c : Nat) (parts : List Bytes) (F R : Bytes)
    (g : GridIn) (inv : WInv init fid c F R g)
    (hfr : ∀ r ∈ init.chunks, r.filesId ≠ fid) :
    ∃ F2 R2 g2, writeAll g parts = (none, g2) ∧ WInv init fid c F2 R2 g2 ∧
      F2 ++ R2 = (F ++ R) ++ parts.flatten := by
  induction parts generalizing F R g with
  | nil => exact ⟨F, R, g, rfl, inv, by simp⟩
  | cons p ps ih =>
      obtain ⟨F1, R1, g1, hw, hinv1, hs1⟩ := write_inv init fid c F R g p inv hfr
      obtain ⟨F2, R2, g2, hws, hinv2, hs2⟩ := ih F1 R1 g1 hinv1
      refine ⟨F2, R2, g2, ?_, hinv2, ?_⟩
      · unfold writeAll
        rw [hw]
        exact hws
      · rw [hs2, hs1]
        simp [List.append_assoc]

theorem upload_ok (fid c : Nat) (hc : 0 < c) (parts : List Bytes) :
    ∃ g2, upload ⟨[], []⟩ fid c parts = (none, g2) ∧
      g2.store.chunks = canonFrom fid c 0 parts.flatten ∧
      g2.store.files = [⟨fid, c, parts.flatten.length, parts.flatten⟩] ∧
      g2.closed = true := by
  have base := freshWriter_inv ⟨[], []⟩ fid c hc
  have hfr : ∀ r ∈ (⟨[], []⟩ : Store).chunks, r.filesId ≠ fid := by
    intro r hmem
    exact absurd hmem (List.not_mem_nil r)
  have hff : ∀ d0 ∈ (⟨[], []⟩ : Store).files, d0.id ≠ fid := by
    intro d0 hmem
    exact absurd hmem (List.not_mem_nil d0)
  obtain ⟨F2, R2, g2, hws, hinv2, hs⟩ :=
    writeAll_inv ⟨[], []⟩ fid c parts [] [] _ base hfr
  have hs2 : F2 ++ R2 = parts.flatten := by
    rw [hs]
    simp
  obtain ⟨g3, hcl, hch, hfl, hc3⟩ := close_inv ⟨[], []⟩ fid c F2 R2 g2 hinv2 hfr hff
  refine ⟨g3, ?_, ?_, ?_, hc3⟩
  · unfold upload
    rw [hws]
    exact hcl
  · rw [hch, hs2]
    simp
  · rw [hfl, hs2]
    simp

theorem div_lt_ceil (p L c : Nat) (hc : 0 < c) (hp : p < L) :
    p / c < ceilDivNat L c := by
  have h1 : ceilDivNat (p + 1) c ≤ ceilDivNat L c := ceilDivNat_le_of_le hp
  have h2 : ceilDivNat (p + 1) c = p / c + 1 := by
    unfold ceilDivNat
    have h3 : p + 1 + c - 1 = p + c := by omega
    rw [h3, Nat.add_div_right _ hc]
  omega

theorem canonFrom_find? (fid c : Nat) (hc : 0 < c) (i : Nat) (B : Bytes) (n : Nat)
    (hn1 : i ≤ n) (hn2 : n < i + (canonFrom fid c i B).length) :
    (canonFrom fid c i B).find? (fun r => r.filesId == fid && r.n == n) =
      some ⟨fid, n, (B.drop (c * (n - i))).take c⟩ := by
  by_cases hB : B = []
  · subst hB
    rw [canonFrom_nil] at hn2
    simp at hn2
    omega
  · rw [canonFrom_cons fid c i B (by omega) hB] at hn2 ⊢
    by_cases hni : n = i
    · subst hni
      rw [List.find?_cons_of_pos _ (by simp)]
      simp
    · rw [List.find?_cons_of_neg _ (by
        simp only [Bool.and_eq_true, beq_iff_eq]
        intro hcontra
        exact hni hcontra.2.symm)]
      have ih := canonFrom_find? fid c hc (i + 1) (B.drop c) n (by omega) (by
        simp only [List.length_cons] at hn2
        omega)
      rw [ih, List.drop_drop]
      have harith : c + c * (n - (i + 1)) = c * (n - i) := by
        have h1 : n - i = (n - (i + 1)) + 1 := by omega
        rw [h1]
        ring
      rw [harith]
termination_by B.length
decreasing_by
  simp only [List.length_drop]
  have : 0 < B.length := List.length_pos.mpr hB
  omega

/-- Lookup of chunk j in a store whose chunk collection is the canonical
records of B followed by arbitrary further records. -/
theorem chunksFindOne_canon (s : Store) (fid c : Nat) (hc : 0 < c) (B : Bytes)
    (post : List ChunkRec)
    (hch : s.chunks = canonFrom fid c 0 B ++ post) :
    ∀ j, j < ceilDivNat B.length c →
      chunksFindOne s fid j = some ⟨fid, j, (B.drop (c * j)).take c⟩ := by
  intro j hj
  unfold chunksFindOne
  rw [hch, List.find?_append]
  have hcanon := canonFrom_find? fid c hc 0 B j (Nat.zero_le j) (by
    rw [canonFrom_length fid c hc 0 B]
    omega)
  rw [Nat.sub_zero] at hcanon
  rw [hcanon]
  rfl

/-- The extra-chunk query on the exact canonical store finds nothing. -/
theorem chunksFindGe_canon_none (s : Store) (fid c : Nat) (hc : 0 < c) (B : Bytes)
    (hch : s.chunks = canonFrom fid c 0 B) :
    chunksFindGe s fid (ceilDivNat B.length c) = none := by
  unfold chunksFindGe
  rw [hch, List.find?_eq_none]
  intro r hmem hp
  simp only [Bool.and_eq_true, beq_iff_eq, decide_eq_true_eq] at hp
  have hmn := canonFrom_mem_n fid c 0 B r hmem
  rw [canonFrom_length fid c hc 0 B] at hmn
  omega

/-- The extra-chunk query on the canonical store followed by one stray record
with index at least the expected chunk count finds that record. -/
theorem chunksFindGe_canon_extra (s : Store) (fid c : Nat) (hc : 0 < c) (B : Bytes)
    (ex : ChunkRec)
    (hch : s.chunks = canonFrom fid c 0 B ++ [ex])
    (hexfid : ex.filesId = fid) (hexn : ceilDivNat B.length c ≤ ex.n) :
    chunksFindGe s fid (ceilDivNat B.length c) = some ex := by
  unfold chunksFindGe
  rw [hch, List.find?_append]
  have hnone : (canonFrom fid c 0 B).find?
      (fun r => r.filesId == fid && decide (ceilDivNat B.length c ≤ r.n)) = none := by
    rw [List.find?_eq_none]
    intro r hmem hp
    simp only [Bool.and_eq_true, beq_iff_eq, decide_eq_true_eq] at hp
    have hmn := canonFrom_mem_n fid c 0 B r hmem
    rw [canonFrom_length fid c hc 0 B] at hmn
    omega
  rw [hnone, Option.none_or]
  rw [List.find?_cons_of_pos _ (by
    simp only [Bool.and_eq_true, beq_iff_eq, decide_eq_true_eq]
    exact ⟨hexfid, hexn⟩)]

theorem readchunk_canon (s : Store) (fid c : Nat) (hc : 0 < c) (B md : Bytes) (p : Nat)
    (hlook : ∀ j, j < ceilDivNat B.length c →
      chunksFindOne s fid j = some ⟨fid, j, (B.drop (c * j)).take c⟩)
    (hp : p < B.length) :
    GridOut.readchunk ⟨s, ⟨fid, c, B.length, md⟩, [], p⟩ =
      .ok ((B.drop p).take (c - p % c),
        ⟨s, ⟨fid, c, B.length, md⟩, [], p + ((B.drop p).take (c - p % c)).length⟩) := by
  have hmod : p % c < c := Nat.mod_lt p hc
  unfold GridOut.readchunk
  dsimp only
  rw [if_neg (by simp)]
  rw [if_pos hp]
  rw [hlook (p / c) (div_lt_ceil p B.length c hc hp)]
  dsimp only
  have hcd : ((B.drop (c * (p / c))).take c).drop (p % c) = (B.drop p).take (c - p % c) := by
    rw [List.drop_take c (p % c) (B.drop (c * (p / c)))]
    rw [List.drop_drop]
    have hdm : c * (p / c) + p % c = p := Nat.div_add_mod p c
    rw [hdm]
  rw [hcd]
  rw [if_neg (by
    rw [List.length_take, List.length_drop]
    omega)]

theorem readLoop_stop (g : GridOut) (szI : Int) (received : Nat) (acc : Bytes)
    (fuel : Nat) (h : ¬ ((received : Int) < szI)) :
    readLoop g szI received acc fuel = .ok (g, received, acc) := by
  unfold readLoop
  rw [if_neg h]

theorem readLoop_step (g : GridOut) (szI : Int) (received : Nat) (acc : Bytes)
    (fuel : Nat) (h : (received : Int) < szI) :
    readLoop g szI received acc (fuel + 1) =
      match g.readchunk with
      | .error e => .error e
      | .ok (cd, g1) => readLoop g1 szI (received + cd.length) (acc ++ cd) fuel := by
  conv_lhs => rw [readLoop]
  rw [if_pos h]

theorem readLoop_canon (s : Store) (fid c : Nat) (hc : 0 < c) (B md : Bytes)
    (hlook : ∀ j, j < ceilDivNat B.length c →
      chunksFindOne s fid j = some ⟨fid, j, (B.drop (c * j)).take c⟩)
    (szI : Int) (fuel : Nat) :
    ∀ (p received : Nat) (acc : Bytes),
      p ≤ B.length →
      szI ≤ (B.length : Int) - (p : Int) + (received : Int) →
      szI.toNat ≤ fuel + received →
      ∃ k : Nat,
        readLoop ⟨s, ⟨fid, c, B.length, md⟩, [], p⟩ szI received acc fuel =
          .ok (⟨s, ⟨fid, c, B.length, md⟩, [], p + k⟩, received + k,
            acc ++ (B.drop p).take k) ∧
        szI ≤ (received : Int) + (k : Int) ∧ p + k ≤ B.length := by
  induction fuel with
  | zero =>
      intro p received acc hp hsz hfuel
      refine ⟨0, ?_, by omega, by omega⟩
      rw [readLoop_stop _ _ _ _ _ (by omega)]
      simp
  | succ fuel ih =>
      intro p received acc hp hsz hfuel
      by_cases hlt : (received : Int) < szI
      · have hpB : p < B.length := by omega
        have hmod : p % c < c := Nat.mod_lt p hc
        have hlen : ((B.drop p).take (c - p % c)).length =
            min (c - p % c) (B.length - p) := by
          rw [List.length_take, List.length_drop]
        rw [readLoop_step _ _ _ _ _ hlt,
          readchunk_canon s fid c hc B md p hlook hpB]
        dsimp only
        obtain ⟨k, hk, hsk, hpk⟩ := ih (p + ((B.drop p).take (c - p % c)).length)
          (received + ((B.drop p).take (c - p % c)).length)
          (acc ++ (B.drop p).take (c - p % c))
          (by omega) (by push_cast; omega) (by omega)
        refine ⟨((B.drop p).take (c - p % c)).length + k, ?_, by omega, by omega⟩
        rw [hk]
        have h1 : p + ((B.drop p).take (c - p % c)).length + k =
            p + (((B.drop p).take (c - p % c)).length + k) := by omega
        have h2 : received + ((B.drop p).take (c - p % c)).length + k =
            received + (((B.drop p).take (c - p % c)).length + k) := by omega
        have h3 : (acc ++ (B.drop p).take (c - p % c)) ++
            (B.drop (p + ((B.drop p).take (c - p % c)).length)).take k =
            acc ++ (B.drop p).take (((B.drop p).take (c - p % c)).length + k) := by
          rw [List.append_assoc]
          congr 1
          rw [List.take_add]
          congr 1
          · rw [List.take_eq_take, List.length_drop]
            omega
          · rw [List.drop_drop]
        rw [h1, h2, h3]
      · refine ⟨0, ?_, by omega, by omega⟩
        rw [readLoop_stop _ _ _ _ _ hlt]
        simp

/-- The clamped byte count of a read call at position p of a file of length
L: the remaining byte count when the requested size is negative or exceeds
it, else the requested size. -/
def clampedSize (L p : Nat) (size : Int) : Nat :=
  (if size < 0 ∨ (L : Int) - (p : Int) < size then (L : Int) - (p : Int) else size).toNat

theorem read_canon (s : Store) (fid c : Nat) (hc : 0 < c) (B md : Bytes) (p : Nat)
    (hlook : ∀ j, j < ceilDivNat B.length c →
      chunksFindOne s fid j = some ⟨fid, j, (B.drop (c * j)).take c⟩)
    (hext : ∀ ch, chunksFindGe s fid (ceilDivNat B.length c) = some ch →
      ch.data.length = 0)
    (hp : p ≤ B.length) (size : Int) :
    ∃ g2, GridOut.read ⟨s, ⟨fid, c, B.length, md⟩, [], p⟩ size =
      .ok ((B.drop p).take (clampedSize B.length p size), g2) ∧
      g2.position = p + clampedSize B.length p size := by
  by_cases hs0 : size = 0
  · subst hs0
    have hcl : clampedSize B.length p 0 = 0 := by
      unfold clampedSize
      rw [if_neg (by omega)]
      rfl
    refine ⟨⟨s, ⟨fid, c, B.length, md⟩, [], p⟩, ?_, by rw [hcl]; simp⟩
    unfold GridOut.read
    rw [if_pos rfl, hcl]
    simp
  · unfold GridOut.read
    rw [if_neg hs0]
    dsimp only
    generalize hszI :
      (if size < 0 ∨ ((B.length : Nat) : Int) - ((p : Nat) : Int) < size
        then ((B.length : Nat) : Int) - ((p : Nat) : Int) else size) = szI
    have hge0 : (0 : Int) ≤ szI := by
      rw [← hszI]
      by_cases hco : size < 0 ∨ ((B.length : Nat) : Int) - ((p : Nat) : Int) < size
      · rw [if_pos hco]
        omega
      · rw [if_neg hco]
        omega
    have hle : szI ≤ ((B.length : Nat) : Int) - ((p : Nat) : Int) := by
      rw [← hszI]
      by_cases hco : size < 0 ∨ ((B.length : Nat) : Int) - ((p : Nat) : Int) < size
      · rw [if_pos hco]
      · rw [if_neg hco]
        omega
    have hcl : clampedSize B.length p size = szI.toNat := by
      unfold clampedSize
      rw [hszI]
    obtain ⟨k, hk, hsk, hpk⟩ := readLoop_canon s fid c hc B md hlook szI
      (szI.toNat + 1) p 0 [] hp (by omega) (by omega)
    rw [hk]
    dsimp only
    rw [hcl]
    have hkn : szI.toNat ≤ k := by omega
    rcases hge : chunksFindGe s fid (ceilDivNat B.length c) with _ | ch
    · dsimp only
      refine ⟨⟨s, ⟨fid, c, B.length, md⟩,
        ((B.drop p).take k).drop szI.toNat, p + szI.toNat⟩, ?_, rfl⟩
      unfold readFinish
      rw [if_neg (by omega)]
      dsimp only
      rw [List.nil_append, List.take_take, min_eq_left hkn]
      have hposEq : (((p + k : Nat) : Int) - ((0 + k : Nat) : Int) + szI).toNat =
          p + szI.toNat := by omega
      rw [hposEq]
    · have hchlen := hext ch hge
      dsimp only
      rw [if_neg (by omega)]
      refine ⟨⟨s, ⟨fid, c, B.length, md⟩,
        ((B.drop p).take k).drop szI.toNat, p + szI.toNat⟩, ?_, rfl⟩
      unfold readFinish
      rw [if_neg (by omega)]
      dsimp only
      rw [List.nil_append, List.take_take, min_eq_left hkn]
      have hposEq : (((p + k : Nat) : Int) - ((0 + k : Nat) : Int) + szI).toNat =
          p + szI.toNat := by omega
      rw [hposEq]

theorem read_extra_err (s : Store) (fid c : Nat) (hc : 0 < c) (B md : Bytes) (p : Nat)
    (hlook : ∀ j, j < ceilDivNat B.length c →
      chunksFindOne s fid j = some ⟨fid, j, (B.drop (c * j)).take c⟩)
    (ex : ChunkRec)
    (hge : chunksFindGe s fid (ceilDivNat B.length c) = some ex)
    (hxlen : ex.data.length ≠ 0)
    (hp : p ≤ B.length) (size : Int) (hs0 : size ≠ 0) :
    GridOut.read ⟨s, ⟨fid, c, B.length, md⟩, [], p⟩ size =
      .error (.corruptExtra (ceilDivNat B.length c) ex.n) := by
  unfold GridOut.read
  rw [if_neg hs0]
  dsimp only
  generalize hszI :
    (if size < 0 ∨ ((B.length : Nat) : Int) - ((p : Nat) : Int) < size
      then ((B.length : Nat) : Int) - ((p : Nat) : Int) else size) = szI
  have hge0 : (0 : Int) ≤ szI := by
    rw [← hszI]
    by_cases hco : size < 0 ∨ ((B.length : Nat) : Int) - ((p : Nat) : Int) < size
    · rw [if_pos hco]
      omega
    · rw [if_neg hco]
      omega
  have hle : szI ≤ ((B.length : Nat) : Int) - ((p : Nat) : Int) := by
    rw [← hszI]
    by_cases hco : size < 0 ∨ ((B.length : Nat) : Int) - ((p : Nat) : Int) < size
    · rw [if_pos hco]
    · rw [if_neg hco]
      omega
  obtain ⟨k, hk, hsk, hpk⟩ := readLoop_canon s fid c hc B md hlook szI
    (szI.toNat + 1) p 0 [] hp (by omega) (by omega)
  rw [hk]
  dsimp only
  rw [hge]
  dsimp only
  rw [if_pos hxlen]

/-- C1: for every byte sequence B, every positive chunk size and every
partition of B into a sequence of write calls, writing the parts through a
fresh GridIn over an empty store, closing it, and reading fully back with
read(-1) from position zero through a GridOut over the persisted file
document returns exactly B. -/
theorem C1_roundTrip (fid c : Nat) (hc : 0 < c) (parts : List Bytes) :
    ∃ g doc g2, upload ⟨[], []⟩ fid c parts = (none, g) ∧
      g.store.files = [doc] ∧
      GridOut.read ⟨g.store, doc, [], 0⟩ (-1) = .ok (parts.flatten, g2) := by
  obtain ⟨g, hup, hch, hfl, hcl⟩ := upload_ok fid c hc parts
  have hlook := chunksFindOne_canon g.store fid c hc parts.flatten []
    (by rw [List.append_nil]; exact hch)
  have hgenone := chunksFindGe_canon_none g.store fid c hc parts.flatten hch
  have hext : ∀ ch, chunksFindGe g.store fid (ceilDivNat parts.flatten.length c) =
      some ch → ch.data.length = 0 := by
    intro ch h
    rw [hgenone] at h
    cases h
  obtain ⟨g2, hread, hpos⟩ := read_canon g.store fid c hc parts.flatten parts.flatten 0
    hlook hext (Nat.zero_le _) (-1)
  refine ⟨g, ⟨fid, c, parts.flatten.length, parts.flatten⟩, g2, hup, hfl, ?_⟩
  rw [hread]
  have hclamp : clampedSize parts.flatten.length 0 (-1) = parts.flatten.length := by
    unfold clampedSize
    rw [if_pos (by omega)]
    omega
  rw [hclamp, List.drop_zero, List.take_length]

/-- The md5 digest of a byte stream computed directly in one pass. The md5
accumulator is modelled abstractly: a digest is represented by the byte
stream fed to the accumulator, of which the hexdigest is a pure function. -/
def md5OnePass (bs : Bytes) : Bytes := bs

/-- C3: for every partition of B into write calls, the digest stored in the
finalized file document equals the one-pass digest of B: the digest is
independent of how the writes were chunked. -/
theorem C3_digest (fid c : Nat) (hc : 0 < c) (parts : List Bytes) :
    ∃ g doc, upload ⟨[], []⟩ fid c parts = (none, g) ∧
      g.store.files = [doc] ∧ doc.md5 = md5OnePass parts.flatten := by
  obtain ⟨g, hup, hch, hfl, hcl⟩ := upload_ok fid c hc parts
  exact ⟨g, ⟨fid, c, parts.flatten.length, parts.flatten⟩, hup, hfl, rfl⟩

theorem mul_lt_of_lt_ceil {j L c : Nat} (hc : 0 < c) (hj : j < ceilDivNat L c) :
    c * j < L := by
  unfold ceilDivNat at hj
  have h1 : j + 1 ≤ (L + c - 1) / c := hj
  have h2 : (j + 1) * c ≤ L + c - 1 := (Nat.le_div_iff_mul_le hc).mp h1
  have h3 : (j + 1) * c = c * j + c := by ring
  omega

theorem canonFrom_filter_self (fid c i : Nat) (B : Bytes) :
    (canonFrom fid c i B).filter (fun r => r.filesId == fid) = canonFrom fid c i B := by
  rw [List.filter_eq_self]
  intro r hmem
  rw [beq_iff_eq]
  exact (canonFrom_mem_n fid c i B r hmem).1

/-- C2: after writing B in any partition and closing, the chunk records for
this file id number exactly the ceiling of the length of B over c, their
indices are the contiguous range from 0, every record has between 1 and c
data bytes, and every record but the last has exactly c. -/
theorem C2_chunkLayout (fid c : Nat) (hc : 0 < c) (parts : List Bytes) :
    ∃ g, upload ⟨[], []⟩ fid c parts = (none, g) ∧
      (g.store.chunks.filter (fun r => r.filesId == fid)).length =
        ceilDivNat parts.flatten.length c ∧
      (∀ j r, (g.store.chunks.filter (fun r => r.filesId == fid))[j]? = some r →
        r.n = j ∧ 1 ≤ r.data.length ∧ r.data.length ≤ c ∧
        (j + 1 < (g.store.chunks.filter (fun r => r.filesId == fid)).length →
          r.data.length = c)) := by
  obtain ⟨g, hup, hch, hfl, hcl⟩ := upload_ok fid c hc parts
  have hfilter : g.store.chunks.filter (fun r => r.filesId == fid) =
      canonFrom fid c 0 parts.flatten := by
    rw [hch, canonFrom_filter_self]
  have hlen := canonFrom_length fid c hc 0 parts.flatten
  refine ⟨g, hup, ?_, ?_⟩
  · rw [hfilter, hlen]
  · intro j r hjr
    rw [hfilter] at hjr
    have hjlt : j < (canonFrom fid c 0 parts.flatten).length := by
      by_contra hge
      rw [List.getElem?_eq_none (by omega)] at hjr
      cases hjr
    have hget := canonFrom_getElem? fid c hc 0 parts.flatten j hjlt
    rw [hget] at hjr
    injection hjr with hr
    subst hr
    have hjceil : j < ceilDivNat parts.flatten.length c := by
      rw [hlen] at hjlt
      exact hjlt
    have hcj : c * j < parts.flatten.length := mul_lt_of_lt_ceil hc hjceil
    refine ⟨by simp, ?_, ?_, ?_⟩
    · show 1 ≤ ((parts.flatten.drop (c * j)).take c).length
      rw [List.length_take, List.length_drop]
      omega
    · show ((parts.flatten.drop (c * j)).take c).length ≤ c
      rw [List.length_take]
      omega
    · intro hjlast
      show ((parts.flatten.drop (c * j)).take c).length = c
      rw [hfilter, hlen] at hjlast
      have hcj1 : c * (j + 1) < parts.flatten.length := mul_lt_of_lt_ceil hc hjlast
      have hexp : c * (j + 1) = c * j + c := by ring
      rw [List.length_take, List.length_drop]
      omega

/-- C6: on a well-formed finalized file, seeking a fresh reader to p from the
start and reading k bytes returns the same bytes as reading p + k bytes on a
fresh reader from position zero and discarding the first p bytes. -/
theorem C6_seekRead (s : Store) (fid c : Nat) (hc : 0 < c) (B md : Bytes) (p k : Nat)
    (hch : s.chunks = canonFrom fid c 0 B) (hp : p ≤ B.length) :
    ∃ g1 r1 h1 r2 h2,
      GridOut.seek ⟨s, ⟨fid, c, B.length, md⟩, [], 0⟩ (p : Int) .set = .ok g1 ∧
      GridOut.read g1 (k : Int) = .ok (r1, h1) ∧
      GridOut.read ⟨s, ⟨fid, c, B.length, md⟩, [], 0⟩ ((p + k : Nat) : Int) =
        .ok (r2, h2) ∧
      r1 = r2.drop p := by
  have hlook := chunksFindOne_canon s fid c hc B []
    (by rw [List.append_nil]; exact hch)
  have hgenone := chunksFindGe_canon_none s fid c hc B hch
  have hext : ∀ ch, chunksFindGe s fid (ceilDivNat B.length c) = some ch →
      ch.data.length = 0 := by
    intro ch h
    rw [hgenone] at h
    cases h
  obtain ⟨h1, hr1, hpos1⟩ := read_canon s fid c hc B md p hlook hext hp (k : Int)
  obtain ⟨h2, hr2, hpos2⟩ := read_canon s fid c hc B md 0 hlook hext (Nat.zero_le _)
    ((p + k : Nat) : Int)
  have hseek : GridOut.seek ⟨s, ⟨fid, c, B.length, md⟩, [], 0⟩ (p : Int) .set =
      .ok ⟨s, ⟨fid, c, B.length, md⟩, [], p⟩ := by
    unfold GridOut.seek
    dsimp only
    rw [if_neg (by omega : ¬ ((p : Nat) : Int) < 0)]
    have htn : ((p : Nat) : Int).toNat = p := by omega
    rw [htn]
  have hm : clampedSize B.length 0 ((p + k : Nat) : Int) - p =
      clampedSize B.length p ((k : Nat) : Int) := by
    unfold clampedSize
    split_ifs <;> omega
  refine ⟨⟨s, ⟨fid, c, B.length, md⟩, [], p⟩, _, h1, _, h2, hseek, hr1, hr2, ?_⟩
  rw [List.drop_zero]
  rw [List.drop_take (clampedSize B.length 0 ((p + k : Nat) : Int)) p B]
  rw [hm]

/-- C5: a finalized file whose store additionally holds one stray chunk at an
index at least the expected chunk count: a read to the end of the file fails
with the corruption error naming the expected count and the found index when
the stray data is not empty, and raises no error when it is empty. -/
theorem C5_extraChunk (s : Store) (fid c m : Nat) (B ed md : Bytes)
    (hc : 0 < c) (hm : ceilDivNat B.length c ≤ m)
    (hch : s.chunks = canonFrom fid c 0 B ++ [⟨fid, m, ed⟩])
    (p : Nat) (hp : p ≤ B.length) :
    (ed ≠ [] → GridOut.read ⟨s, ⟨fid, c, B.length, md⟩, [], p⟩ (-1) =
      .error (.corruptExtra (ceilDivNat B.length c) m)) ∧
    (ed = [] → ∃ r g2, GridOut.read ⟨s, ⟨fid, c, B.length, md⟩, [], p⟩ (-1) =
      .ok (r, g2)) := by
  have hlook := chunksFindOne_canon s fid c hc B [⟨fid, m, ed⟩] hch
  have hgex := chunksFindGe_canon_extra s fid c hc B ⟨fid, m, ed⟩ hch rfl hm
  constructor
  · intro hed
    exact read_extra_err s fid c hc B md p hlook ⟨fid, m, ed⟩ hgex
      (by
        show ed.length ≠ 0
        have := List.length_pos.mpr hed
        omega)
      hp (-1) (by omega)
  · intro hed
    subst hed
    have hext : ∀ ch, chunksFindGe s fid (ceilDivNat B.length c) = some ch →
        ch.data.length = 0 := by
      intro ch h
      rw [hgex] at h
      injection h with h2
      rw [← h2]
      rfl
    obtain ⟨g2, hread, hpos2⟩ := read_canon s fid c hc B md p hlook hext hp (-1)
    exact ⟨_, g2, hread⟩

/-- C9: with a non-empty stray chunk at an index at least the expected chunk
count, every read call with size other than zero fails with the extra-chunk
corruption error, also when the read stops short of the declared length: the
extra-chunk query runs on every read call. -/
theorem C9_extraEveryRead (s : Store) (fid c m : Nat) (B ed md : Bytes)
    (hc : 0 < c) (hm : ceilDivNat B.length c ≤ m) (hed : ed ≠ [])
    (hch : s.chunks = canonFrom fid c 0 B ++ [⟨fid, m, ed⟩])
    (p : Nat) (hp : p ≤ B.length) (size : Int) (hs0 : size ≠ 0) :
    GridOut.read ⟨s, ⟨fid, c, B.length, md⟩, [], p⟩ size =
      .error (.corruptExtra (ceilDivNat B.length c) m) := by
  have hlook := chunksFindOne_canon s fid c hc B [⟨fid, m, ed⟩] hch
  have hgex := chunksFindGe_canon_extra s fid c hc B ⟨fid, m, ed⟩ hch rfl hm
  exact read_extra_err s fid c hc B md p hlook ⟨fid, m, ed⟩ hgex
    (by
      show ed.length ≠ 0
      have := List.length_pos.mpr hed
      omega)
    hp size hs0

/-- C4: on a reader with an empty look-ahead buffer positioned before the
declared end, a read call with size other than zero fails with the
missing-chunk corruption error when the store has no record at the next
expected index, and with the truncated-chunk corruption error when the
record at that index yields no bytes past the consumed leading part. -/
theorem C4_missingOrTruncated (g : GridOut) (size : Int)
    (hbuf : g.buffer = []) (hpos : g.position < g.fileDoc.length) (hsz : size ≠ 0) :
    (chunksFindOne g.store g.fileDoc.id (g.position / g.fileDoc.chunkSize) = none →
      g.read size = .error (.corruptMissing (g.position / g.fileDoc.chunkSize))) ∧
    (∀ ch, chunksFindOne g.store g.fileDoc.id (g.position / g.fileDoc.chunkSize) =
        some ch →
      ch.data.drop (g.position % g.fileDoc.chunkSize) = [] →
      g.read size = .error .corruptTruncated) := by
  have hrc_prop : ∀ e, g.readchunk = .error e → g.read size = .error e := by
    intro e hrc
    unfold GridOut.read
    rw [if_neg hsz]
    dsimp only
    generalize hszI :
      (if size < 0 ∨ ((g.fileDoc.length : Nat) : Int) - ((g.position : Nat) : Int) < size
        then ((g.fileDoc.length : Nat) : Int) - ((g.position : Nat) : Int) else size) = szI
    have hszpos : (0 : Int) < szI := by
      rw [← hszI]
      by_cases hco : size < 0 ∨
          ((g.fileDoc.length : Nat) : Int) - ((g.position : Nat) : Int) < size
      · rw [if_pos hco]
        omega
      · rw [if_neg hco]
        omega
    rw [readLoop_step _ _ _ _ _ (by omega : ((0 : Nat) : Int) < szI)]
    rw [hrc]
  constructor
  · intro hmiss
    apply hrc_prop
    unfold GridOut.readchunk
    dsimp only
    rw [hbuf, if_neg (by simp), if_pos hpos, hmiss]
  · intro ch hfound hdrop
    apply hrc_prop
    unfold GridOut.readchunk
    dsimp only
    rw [hbuf, if_neg (by simp), if_pos hpos, hfound]
    dsimp only
    rw [hdrop, if_pos (by simp)]

/-- C7 (amended): when finalizing hits a duplicate key on the file document
or on a chunk insert, close propagates the FileExists error naming the file
id, and the closed flag remains false, since the raise skips the line of
close that sets the flag; further writes are therefore still accepted. -/
theorem C7_closeDuplicate (g : GridIn)
    (hcl : g.closed = false) (hblen : g.buffer.length ≤ g.chunkSize)
    (hdup : (∃ d0 ∈ g.store.files, d0.id = g.fileId) ∨
      (g.buffer ≠ [] ∧ ∃ r ∈ g.store.chunks,
        r.filesId = g.fileId ∧ r.n = g.chunkNumber)) :
    (g.close).1 = some (.fileExists g.fileId) ∧ (g.close).2.closed = false := by
  have hfl : ∃ gb, g.flush = (some (.fileExists g.fileId), gb) ∧ gb.closed = false := by
    by_cases hbuf0 : g.buffer = []
    · rcases hdup with ⟨d0, hd0mem, hd0id⟩ | ⟨hne, _⟩
      · have hfb := flushBuffer_emptybuf g hbuf0
        have hany : (g.store.files.any (fun x => x.id == g.fileId)) = true := by
          rw [List.any_eq_true]
          exact ⟨d0, hd0mem, by rw [beq_iff_eq]; exact hd0id⟩
        refine ⟨{ g with buffer := [] }, ?_, hcl⟩
        unfold GridIn.flush
        rw [hfb]
        dsimp only
        unfold filesInsertOne
        rw [if_pos hany]
      · exact absurd hbuf0 hne
    · rcases hins : chunksInsertOne g.store ⟨g.fileId, g.chunkNumber, g.buffer⟩
        with _ | s2
      · have hfd : flushData g g.buffer =
            (some (.fileExists g.fileId), { g with md5 := g.md5 ++ g.buffer }) := by
          unfold flushData
          dsimp only
          rw [if_neg hbuf0, if_neg (by omega)]
          rw [hins]
        refine ⟨{ g with md5 := g.md5 ++ g.buffer }, ?_, hcl⟩
        unfold GridIn.flush flushBuffer
        rw [hfd]
      · have hnodup := hins
        unfold chunksInsertOne at hnodup
        by_cases hcond : (g.store.chunks.any
            (fun c0 => c0.filesId == (⟨g.fileId, g.chunkNumber, g.buffer⟩ : ChunkRec).filesId &&
              c0.n == (⟨g.fileId, g.chunkNumber, g.buffer⟩ : ChunkRec).n)) = true
        · rw [if_pos hcond] at hnodup
          cases hnodup
        · rw [if_neg hcond] at hnodup
          injection hnodup with hs2
          rcases hdup with ⟨d0, hd0mem, hd0id⟩ | ⟨hne, r, hrmem, hrfid, hrn⟩
          · have hfd : flushData g g.buffer =
                (none, { g with
                           md5 := g.md5 ++ g.buffer,
                           store := s2,
                           chunkNumber := g.chunkNumber + 1,
                           position := g.position + g.buffer.length }) := by
              unfold flushData
              dsimp only
              rw [if_neg hbuf0, if_neg (by omega)]
              rw [hins]
            have hs2files : s2.files = g.store.files := by
              rw [← hs2]
            have hany : (s2.files.any (fun x => x.id == g.fileId)) = true := by
              rw [hs2files, List.any_eq_true]
              exact ⟨d0, hd0mem, by rw [beq_iff_eq]; exact hd0id⟩
            refine ⟨⟨s2, g.fileId, g.chunkSize, g.md5 ++ g.buffer, [],
              g.position + g.buffer.length, g.chunkNumber + 1, g.closed⟩, ?_, hcl⟩
            unfold GridIn.flush flushBuffer
            rw [hfd]
            dsimp only
            unfold filesInsertOne
            rw [if_pos hany]
          · exact absurd (by
              rw [List.any_eq_true]
              exact ⟨r, hrmem, by
                simp only [Bool.and_eq_true, beq_iff_eq]
                exact ⟨hrfid, hrn⟩⟩) hcond
  obtain ⟨gb, hfl1, hfl2⟩ := hfl
  constructor
  · unfold GridIn.close
    rw [if_neg (by rw [hcl]; simp), hfl1]
  · unfold GridIn.close
    rw [if_neg (by rw [hcl]; simp), hfl1]
    exact hfl2

/-- C7 counterexample: a writer with buffered bytes whose file id already has
a file document in the store: close raises the FileExists error, yet the
closed flag stays false and a further write call is not rejected, contrary
to the claim that the writer ends up in the closed state. -/
theorem C7_cex :
    ((⟨⟨[], [⟨5, 4, 0, []⟩]⟩, 5, 4, [], [1, 2, 3], 0, 0, false⟩ : GridIn).close).1 =
      some (.fileExists 5) ∧
    ((⟨⟨[], [⟨5, 4, 0, []⟩]⟩, 5, 4, [], [1, 2, 3], 0, 0, false⟩ : GridIn).close).2.closed =
      false := by
  constructor
  · rfl
  · rfl

/-- C10: when the top-up read from a file-like source raises while the
buffer holds bytes short of a chunk, write calls abort before re-raising:
every chunk record and the file document for this id are deleted from the
store and the writer is marked closed; a raise from the subsequent
full-chunk read loop propagates with the state untouched and the writer not
closed. -/
theorem C10_sourceAbort (g : GridIn) (rest : Src) (hcl : g.closed = false) :
    (g.buffer ≠ [] → g.buffer.length < g.chunkSize →
      g.writeSrc (none :: rest) = (some .sourceError, g.abort) ∧
      g.abort.closed = true ∧
      g.abort.store.chunks =
        g.store.chunks.filter (fun r => !(r.filesId == g.fileId)) ∧
      g.abort.store.files = g.store.files.eraseP (fun d0 => d0.id == g.fileId)) ∧
    (g.buffer = [] → g.writeSrc (none :: rest) = (some .sourceError, g)) := by
  constructor
  · intro hne hlt
    have hlen0 : g.buffer.length ≠ 0 := by
      have := List.length_pos.mpr hne
      omega
    refine ⟨?_, rfl, rfl, rfl⟩
    unfold GridIn.writeSrc
    rw [if_neg (by rw [hcl]; simp), if_pos hlen0,
      if_pos (show g.chunkSize - g.buffer.length ≠ 0 by omega)]
  · intro hbuf0
    unfold GridIn.writeSrc
    rw [if_neg (by rw [hcl]; simp),
      if_neg (show ¬ g.buffer.length ≠ 0 by rw [hbuf0]; simp)]
    unfold writeSrcTail
    rfl

theorem readlineLoop_stop (g : GridOut) (szI : Int) (received : Nat) (acc : Bytes)
    (fuel : Nat) (h : ¬ ((received : Int) < szI)) :
    readlineLoop g szI received acc fuel = .ok (g, szI, received, acc) := by
  unfold readlineLoop
  rw [if_neg h]

theorem readlineLoop_step (g : GridOut) (szI : Int) (received : Nat) (acc : Bytes)
    (fuel : Nat) (h : (received : Int) < szI) :
    readlineLoop g szI received acc (fuel + 1) =
      match g.readchunk with
      | .error e => .error e
      | .ok (cd, g1) =>
          match findNL cd szI with
          | some p =>
              .ok (g1, ((received + p + 1 : Nat) : Int), received + cd.length, acc ++ cd)
          | none => readlineLoop g1 szI (received + cd.length) (acc ++ cd) fuel := by
  conv_lhs => rw [readlineLoop]
  rw [if_pos h]

/-- The per-chunk newline scan describing the amended readline semantics: q
is the absolute byte position of the next chunk fetch on the canonical file
B at chunk size c, received the byte count already fetched by this call, and
sz the clamped overall size bound. Each fetched window is searched for a
newline among its leading sz bytes; a hit at window offset i ends the call
at size received + i + 1, which may exceed sz when the hit lies in a later
window, and when no window has a hit within the bound the final size is sz
itself, as for read. -/
def rlScan (B : Bytes) (c sz q received fuel : Nat) : Nat :=
  if sz ≤ received then sz
  else
    match fuel with
    | 0 => sz
    | fuel' + 1 =>
        let cd := (B.drop q).take (c - q % c)
        match (cd.take sz).findIdx? (fun b => b == 10) with
        | some i => received + i + 1
        | none => rlScan B c sz (q + cd.length) (received + cd.length) fuel'

theorem readlineLoop_canon (s : Store) (fid c : Nat) (hc : 0 < c) (B md : Bytes)
    (hlook : ∀ j, j < ceilDivNat B.length c →
      chunksFindOne s fid j = some ⟨fid, j, (B.drop (c * j)).take c⟩)
    (szN : Nat) (fuel : Nat) :
    ∀ (q received : Nat) (acc : Bytes),
      q ≤ B.length →
      (szN : Int) ≤ (B.length : Int) - (q : Int) + (received : Int) →
      szN ≤ fuel + received →
      ∃ k : Nat,
        readlineLoop ⟨s, ⟨fid, c, B.length, md⟩, [], q⟩ ((szN : Nat) : Int)
            received acc fuel =
          .ok (⟨s, ⟨fid, c, B.length, md⟩, [], q + k⟩,
            ((rlScan B c szN q received fuel : Nat) : Int),
            received + k, acc ++ (B.drop q).take k) ∧
        rlScan B c szN q received fuel ≤ received + k ∧
        q + k ≤ B.length := by
  induction fuel with
  | zero =>
      intro q received acc hq hsz hfuel
      have hscan : rlScan B c szN q received 0 = szN := by
        unfold rlScan
        rw [if_pos (by omega)]
      refine ⟨0, ?_, ?_, by omega⟩
      · rw [readlineLoop_stop _ _ _ _ _ (by omega), hscan]
        simp
      · rw [hscan]
        omega
  | succ fuel ih =>
      intro q received acc hq hsz hfuel
      by_cases hlt : (received : Int) < ((szN : Nat) : Int)
      · have hqB : q < B.length := by omega
        have hmod : q % c < c := Nat.mod_lt q hc
        have hlen : ((B.drop q).take (c - q % c)).length =
            min (c - q % c) (B.length - q) := by
          rw [List.length_take, List.length_drop]
        rw [readlineLoop_step _ _ _ _ _ hlt,
          readchunk_canon s fid c hc B md q hlook hqB]
        dsimp only
        have hfindNL : findNL ((B.drop q).take (c - q % c)) ((szN : Nat) : Int) =
            (((B.drop q).take (c - q % c)).take szN).findIdx? (fun b => b == 10) := by
          unfold findNL
          rw [Int.toNat_natCast]
        rw [hfindNL]
        rcases hfind : (((B.drop q).take (c - q % c)).take szN).findIdx?
            (fun b => b == 10) with _ | i
        · have hscan : rlScan B c szN q received (fuel + 1) =
              rlScan B c szN (q + ((B.drop q).take (c - q % c)).length)
                (received + ((B.drop q).take (c - q % c)).length) fuel := by
            conv_lhs => rw [rlScan]
            rw [if_neg (by omega)]
            dsimp only
            rw [hfind]
          rw [hscan]
          dsimp only
          obtain ⟨k, hk, hbound, hqk⟩ := ih (q + ((B.drop q).take (c - q % c)).length)
            (received + ((B.drop q).take (c - q % c)).length)
            (acc ++ (B.drop q).take (c - q % c))
            (by omega) (by push_cast; omega) (by omega)
          refine ⟨((B.drop q).take (c - q % c)).length + k, ?_, by omega, by omega⟩
          rw [hk]
          have h1 : q + ((B.drop q).take (c - q % c)).length + k =
              q + (((B.drop q).take (c - q % c)).length + k) := by omega
          have h2 : received + ((B.drop q).take (c - q % c)).length + k =
              received + (((B.drop q).take (c - q % c)).length + k) := by omega
          have h3 : (acc ++ (B.drop q).take (c - q % c)) ++
              (B.drop (q + ((B.drop q).take (c - q % c)).length)).take k =
              acc ++ (B.drop q).take (((B.drop q).take (c - q % c)).length + k) := by
            rw [List.append_assoc]
            congr 1
            rw [List.take_add]
            congr 1
            · rw [List.take_eq_take, List.length_drop]
              omega
            · rw [List.drop_drop]
          rw [h1, h2, h3]
        · have hilt : i < (((B.drop q).take (c - q % c)).take szN).length :=
            (List.findIdx?_eq_some_iff_findIdx_eq.mp hfind).1
          have hilen : (((B.drop q).take (c - q % c)).take szN).length ≤
              ((B.drop q).take (c - q % c)).length := by
            rw [List.length_take szN]
            omega
          have hscan : rlScan B c szN q received (fuel + 1) = received + i + 1 := by
            conv_lhs => rw [rlScan]
            rw [if_neg (by omega)]
            dsimp only
            rw [hfind]
          rw [hscan]
          dsimp only
          refine ⟨((B.drop q).take (c - q % c)).length, ?_, by omega, by omega⟩
          have h3 : acc ++ (B.drop q).take (c - q % c) =
              acc ++ (B.drop q).take (((B.drop q).take (c - q % c)).length) := by
            congr 1
            rw [List.take_eq_take, List.length_drop]
            omega
          rw [h3]
      · have hscan : rlScan B c szN q received (fuel + 1) = szN := by
          unfold rlScan
          rw [if_pos (by omega)]
        refine ⟨0, ?_, ?_, by omega⟩
        · rw [readlineLoop_stop _ _ _ _ _ hlt, hscan]
          simp
        · rw [hscan]
          omega

/-- C8 (amended): on a well-formed finalized file, readline returns exactly
the leading bytes after the cursor whose count is computed by rlScan: the
newline search bound min(size, L - p) is applied to the leading bytes of
each fetched chunk window separately, not to the running total, so the
returned byte count is received + i + 1 for a newline hit at window offset
i, which may exceed min(size, L - p), and equals min(size, L - p), the count
read would return, when no window hits a newline within the bound. -/
theorem C8_readlineAmended (s : Store) (fid c : Nat) (hc : 0 < c) (B md : Bytes)
    (hch : s.chunks = canonFrom fid c 0 B) (p : Nat) (hp : p ≤ B.length)
    (size : Int) :
    ∃ g2, GridOut.readline ⟨s, ⟨fid, c, B.length, md⟩, [], p⟩ size =
      .ok ((B.drop p).take
        (rlScan B c (clampedSize B.length p size) p 0 (clampedSize B.length p size + 1)),
        g2) ∧
      g2.position = p +
        rlScan B c (clampedSize B.length p size) p 0 (clampedSize B.length p size + 1) := by
  have hlook := chunksFindOne_canon s fid c hc B []
    (by rw [List.append_nil]; exact hch)
  by_cases hs0 : size = 0
  · subst hs0
    have hcl : clampedSize B.length p 0 = 0 := by
      unfold clampedSize
      rw [if_neg (by omega)]
      rfl
    have hscan : rlScan B c 0 p 0 1 = 0 := by
      unfold rlScan
      rw [if_pos (by omega)]
    refine ⟨⟨s, ⟨fid, c, B.length, md⟩, [], p⟩, ?_, by rw [hcl, hscan]; simp⟩
    unfold GridOut.readline
    rw [if_pos rfl, hcl, hscan]
    simp
  · unfold GridOut.readline
    rw [if_neg hs0]
    dsimp only
    generalize hszI :
      (if size < 0 ∨ ((B.length : Nat) : Int) - ((p : Nat) : Int) < size
        then ((B.length : Nat) : Int) - ((p : Nat) : Int) else size) = szI
    have hge0 : (0 : Int) ≤ szI := by
      rw [← hszI]
      by_cases hco : size < 0 ∨ ((B.length : Nat) : Int) - ((p : Nat) : Int) < size
      · rw [if_pos hco]
        omega
      · rw [if_neg hco]
        omega
    have hle : szI ≤ ((B.length : Nat) : Int) - ((p : Nat) : Int) := by
      rw [← hszI]
      by_cases hco : size < 0 ∨ ((B.length : Nat) : Int) - ((p : Nat) : Int) < size
      · rw [if_pos hco]
      · rw [if_neg hco]
        omega
    obtain ⟨n, rfl⟩ : ∃ n : Nat, szI = (n : Int) := ⟨szI.toNat, by omega⟩
    have htn : ((n : Nat) : Int).toNat = n := by omega
    rw [htn]
    have hcl : clampedSize B.length p size = n := by
      unfold clampedSize
      rw [hszI, htn]
    rw [hcl]
    obtain ⟨k, hk, hbound, hqk⟩ := readlineLoop_canon s fid c hc B md hlook n
      (n + 1) p 0 [] hp (by omega) (by omega)
    rw [hk]
    dsimp only
    unfold readFinish
    rw [if_neg (by omega)]
    dsimp only
    have htn2 : ((rlScan B c n p 0 (n + 1) : Nat) : Int).toNat =
        rlScan B c n p 0 (n + 1) := by omega
    rw [htn2]
    rw [List.nil_append, List.take_take, min_eq_left (by omega)]
    have hposEq : (((p + k : Nat) : Int) - ((0 + k : Nat) : Int) +
        ((rlScan B c n p 0 (n + 1) : Nat) : Int)).toNat =
        p + rlScan B c n p 0 (n + 1) := by omega
    rw [hposEq]
    exact ⟨_, rfl, rfl⟩

/-- C8 counterexample: chunk size 4, file bytes 97 98 99 100 101 10 102 103
of length 8, fresh reader, readline with size 5: the newline sits at overall
offset 5, outside the first min(5, 8) = 5 bytes, yet readline returns six
bytes ending at the newline, more than the bound min(5, 8) that the claim
allows, and not the five bytes read(5) would give. -/
theorem C8_cex :
    GridOut.readline
        ⟨⟨[⟨9, 0, [97, 98, 99, 100]⟩, ⟨9, 1, [101, 10, 102, 103]⟩], []⟩,
          ⟨9, 4, 8, []⟩, [], 0⟩ 5 =
      .ok ([97, 98, 99, 100, 101, 10],
        ⟨⟨[⟨9, 0, [97, 98, 99, 100]⟩, ⟨9, 1, [101, 10, 102, 103]⟩], []⟩,
          ⟨9, 4, 8, []⟩, [102, 103], 6⟩) ∧
    min 5 (8 - 0) < ([97, 98, 99, 100, 101, 10] : Bytes).length := by
  constructor
  · rfl
  · decide

theorem C1_roundTrip_witness :
    0 < 4 ∧
    ∃ g doc g2, upload ⟨[], []⟩ 7 4 [[1, 2], [3, 4, 5]] = (none, g) ∧
      g.store.files = [doc] ∧
      GridOut.read ⟨g.store, doc, [], 0⟩ (-1) = .ok ([1, 2, 3, 4, 5], g2) :=
  ⟨by decide, C1_roundTrip 7 4 (by decide) [[1, 2], [3, 4, 5]]⟩

theorem C2_chunkLayout_witness :
    0 < 4 ∧
    ∃ g, upload ⟨[], []⟩ 7 4 [[1, 2], [3, 4, 5]] = (none, g) ∧
      (g.store.chunks.filter (fun r => r.filesId == 7)).length =
        ceilDivNat ([1, 2, 3, 4, 5] : Bytes).length 4 ∧
      (∀ j r, (g.store.chunks.filter (fun r => r.filesId == 7))[j]? = some r →
        r.n = j ∧ 1 ≤ r.data.length ∧ r.data.length ≤ 4 ∧
        (j + 1 < (g.store.chunks.filter (fun r => r.filesId == 7)).length →
          r.data.length = 4)) :=
  ⟨by decide, C2_chunkLayout 7 4 (by decide) [[1, 2], [3, 4, 5]]⟩

theorem C3_digest_witness :
    0 < 4 ∧
    ∃ g doc, upload ⟨[], []⟩ 7 4 [[1, 2], [3, 4, 5]] = (none, g) ∧
      g.store.files = [doc] ∧ doc.md5 = md5OnePass [1, 2, 3, 4, 5] :=
  ⟨by decide, C3_digest 7 4 (by decide) [[1, 2], [3, 4, 5]]⟩

theorem C4_missingOrTruncated_witness :
    ((⟨⟨[], []⟩, ⟨3, 2, 10, []⟩, [], 0⟩ : GridOut).buffer = []) ∧
    ((⟨⟨[], []⟩, ⟨3, 2, 10, []⟩, [], 0⟩ : GridOut).position <
      (⟨⟨[], []⟩, ⟨3, 2, 10, []⟩, [], 0⟩ : GridOut).fileDoc.length) ∧
    ((-1 : Int) ≠ 0) ∧
    ((chunksFindOne ⟨[], []⟩ 3 (0 / 2) = none →
      (⟨⟨[], []⟩, ⟨3, 2, 10, []⟩, [], 0⟩ : GridOut).read (-1) =
        .error (.corruptMissing (0 / 2))) ∧
    (∀ ch, chunksFindOne ⟨[], []⟩ 3 (0 / 2) = some ch →
      ch.data.drop (0 % 2) = [] →
      (⟨⟨[], []⟩, ⟨3, 2, 10, []⟩, [], 0⟩ : GridOut).read (-1) =
        .error .corruptTruncated)) :=
  ⟨rfl, by decide, by decide,
    C4_missingOrTruncated ⟨⟨[], []⟩, ⟨3, 2, 10, []⟩, [], 0⟩ (-1) rfl (by decide) (by decide)⟩

theorem C5_extraChunk_witness :
    0 < 2 ∧ ceilDivNat ([9, 8, 7] : Bytes).length 2 ≤ 5 ∧
    (⟨canonFrom 3 2 0 [9, 8, 7] ++ [⟨3, 5, [1]⟩], []⟩ : Store).chunks =
      canonFrom 3 2 0 [9, 8, 7] ++ [⟨3, 5, [1]⟩] ∧
    (1 : Nat) ≤ ([9, 8, 7] : Bytes).length ∧
    ((([1] : Bytes) ≠ [] →
      GridOut.read ⟨⟨canonFrom 3 2 0 [9, 8, 7] ++ [⟨3, 5, [1]⟩], []⟩,
          ⟨3, 2, ([9, 8, 7] : Bytes).length, []⟩, [], 1⟩ (-1) =
        .error (.corruptExtra (ceilDivNat ([9, 8, 7] : Bytes).length 2) 5)) ∧
    (([1] : Bytes) = [] → ∃ r g2,
      GridOut.read ⟨⟨canonFrom 3 2 0 [9, 8, 7] ++ [⟨3, 5, [1]⟩], []⟩,
          ⟨3, 2, ([9, 8, 7] : Bytes).length, []⟩, [], 1⟩ (-1) = .ok (r, g2))) :=
  ⟨by decide, by decide, rfl, by decide,
    C5_extraChunk ⟨canonFrom 3 2 0 [9, 8, 7] ++ [⟨3, 5, [1]⟩], []⟩ 3 2 5 [9, 8, 7] [1] []
      (by decide) (by decide) rfl 1 (by decide)⟩

theorem C6_seekRead_witness :
    0 < 2 ∧
    (⟨canonFrom 3 2 0 [9, 8, 7], []⟩ : Store).chunks = canonFrom 3 2 0 [9, 8, 7] ∧
    (1 : Nat) ≤ ([9, 8, 7] : Bytes).length ∧
    (∃ g1 r1 h1 r2 h2,
      GridOut.seek ⟨⟨canonFrom 3 2 0 [9, 8, 7], []⟩,
          ⟨3, 2, ([9, 8, 7] : Bytes).length, []⟩, [], 0⟩ ((1 : Nat) : Int) .set = .ok g1 ∧
      GridOut.read g1 ((5 : Nat) : Int) = .ok (r1, h1) ∧
      GridOut.read ⟨⟨canonFrom 3 2 0 [9, 8, 7], []⟩,
          ⟨3, 2, ([9, 8, 7] : Bytes).length, []⟩, [], 0⟩ ((1 + 5 : Nat) : Int) =
        .ok (r2, h2) ∧
      r1 = r2.drop 1) :=
  ⟨by decide, rfl, by decide,
    C6_seekRead ⟨canonFrom 3 2 0 [9, 8, 7], []⟩ 3 2 (by decide) [9, 8, 7] [] 1 5
      rfl (by decide)⟩

theorem C7_closeDuplicate_witness :
    ((⟨⟨[], [⟨5, 4, 0, []⟩]⟩, 5, 4, [], [1, 2, 3], 0, 0, false⟩ : GridIn).closed = false) ∧
    ((⟨⟨[], [⟨5, 4, 0, []⟩]⟩, 5, 4, [], [1, 2, 3], 0, 0, false⟩ : GridIn).buffer.length ≤
      (⟨⟨[], [⟨5, 4, 0, []⟩]⟩, 5, 4, [], [1, 2, 3], 0, 0, false⟩ : GridIn).chunkSize) ∧
    ((∃ d0 ∈ (⟨⟨[], [⟨5, 4, 0, []⟩]⟩, 5, 4, [], [1, 2, 3], 0, 0, false⟩ :
        GridIn).store.files, d0.id = 5) ∨
      ((⟨⟨[], [⟨5, 4, 0, []⟩]⟩, 5, 4, [], [1, 2, 3], 0, 0, false⟩ : GridIn).buffer ≠ [] ∧
        ∃ r ∈ (⟨⟨[], [⟨5, 4, 0, []⟩]⟩, 5, 4, [], [1, 2, 3], 0, 0, false⟩ :
          GridIn).store.chunks, r.filesId = 5 ∧ r.n = 0)) ∧
    (((⟨⟨[], [⟨5, 4, 0, []⟩]⟩, 5, 4, [], [1, 2, 3], 0, 0, false⟩ : GridIn).close).1 =
      some (.fileExists 5) ∧
    ((⟨⟨[], [⟨5, 4, 0, []⟩]⟩, 5, 4, [], [1, 2, 3], 0, 0, false⟩ : GridIn).close).2.closed =
      false) :=
  ⟨rfl, by decide, by decide,
    C7_closeDuplicate ⟨⟨[], [⟨5, 4, 0, []⟩]⟩, 5, 4, [], [1, 2, 3], 0, 0, false⟩
      rfl (by decide) (by decide)⟩

theorem C8_readlineAmended_witness :
    0 < 4 ∧
    (⟨canonFrom 9 4 0 [97, 98, 99, 100, 101, 10, 102, 103], []⟩ : Store).chunks =
      canonFrom 9 4 0 [97, 98, 99, 100, 101, 10, 102, 103] ∧
    (0 : Nat) ≤ ([97, 98, 99, 100, 101, 10, 102, 103] : Bytes).length ∧
    (∃ g2, GridOut.readline ⟨⟨canonFrom 9 4 0 [97, 98, 99, 100, 101, 10, 102, 103], []⟩,
        ⟨9, 4, ([97, 98, 99, 100, 101, 10, 102, 103] : Bytes).length, []⟩, [], 0⟩ 5 =
      .ok ((([97, 98, 99, 100, 101, 10, 102, 103] : Bytes).drop 0).take
        (rlScan [97, 98, 99, 100, 101, 10, 102, 103] 4
          (clampedSize ([97, 98, 99, 100, 101, 10, 102, 103] : Bytes).length 0 5) 0 0
          (clampedSize ([97, 98, 99, 100, 101, 10, 102, 103] : Bytes).length 0 5 + 1)),
        g2) ∧
      g2.position = 0 +
        rlScan [97, 98, 99, 100, 101, 10, 102, 103] 4
          (clampedSize ([97, 98, 99, 100, 101, 10, 102, 103] : Bytes).length 0 5) 0 0
          (clampedSize ([97, 98, 99, 100, 101, 10, 102, 103] : Bytes).length 0 5 + 1)) :=
  ⟨by decide, rfl, by decide,
    C8_readlineAmended ⟨canonFrom 9 4 0 [97, 98, 99, 100, 101, 10, 102, 103], []⟩ 9 4
      (by decide) [97, 98, 99, 100, 101, 10, 102, 103] [] rfl 0 (by decide) 5⟩

theorem C9_extraEveryRead_witness :
    0 < 2 ∧ ceilDivNat ([9, 8, 7] : Bytes).length 2 ≤ 5 ∧ ([1] : Bytes) ≠ [] ∧
    (⟨canonFrom 3 2 0 [9, 8, 7] ++ [⟨3, 5, [1]⟩], []⟩ : Store).chunks =
      canonFrom 3 2 0 [9, 8, 7] ++ [⟨3, 5, [1]⟩] ∧
    (0 : Nat) ≤ ([9, 8, 7] : Bytes).length ∧ (1 : Int) ≠ 0 ∧
    GridOut.read ⟨⟨canonFrom 3 2 0 [9, 8, 7] ++ [⟨3, 5, [1]⟩], []⟩,
        ⟨3, 2, ([9, 8, 7] : Bytes).length, []⟩, [], 0⟩ 1 =
      .error (.corruptExtra (ceilDivNat ([9, 8, 7] : Bytes).length 2) 5) :=
  ⟨by decide, by decide, by decide, rfl, by decide, by decide,
    C9_extraEveryRead ⟨canonFrom 3 2 0 [9, 8, 7] ++ [⟨3, 5, [1]⟩], []⟩ 3 2 5 [9, 8, 7]
      [1] [] (by decide) (by decide) (by decide) rfl 0 (by decide) 1 (by decide)⟩

theorem C10_sourceAbort_witness :
    ((⟨⟨[⟨5, 0, [1, 2]⟩], [⟨6, 4, 0, []⟩]⟩, 5, 4, [], [7], 0, 1, false⟩ :
      GridIn).closed = false) ∧
    (((⟨⟨[⟨5, 0, [1, 2]⟩], [⟨6, 4, 0, []⟩]⟩, 5, 4, [], [7], 0, 1, false⟩ :
        GridIn).buffer ≠ [] →
      (⟨⟨[⟨5, 0, [1, 2]⟩], [⟨6, 4, 0, []⟩]⟩, 5, 4, [], [7], 0, 1, false⟩ :
        GridIn).buffer.length <
        (⟨⟨[⟨5, 0, [1, 2]⟩], [⟨6, 4, 0, []⟩]⟩, 5, 4, [], [7], 0, 1, false⟩ :
          GridIn).chunkSize →
      (⟨⟨[⟨5, 0, [1, 2]⟩], [⟨6, 4, 0, []⟩]⟩, 5, 4, [], [7], 0, 1, false⟩ :
        GridIn).writeSrc (none :: []) =
        (some .sourceError,
          (⟨⟨[⟨5, 0, [1, 2]⟩], [⟨6, 4, 0, []⟩]⟩, 5, 4, [], [7], 0, 1, false⟩ :
            GridIn).abort) ∧
      (⟨⟨[⟨5, 0, [1, 2]⟩], [⟨6, 4, 0, []⟩]⟩, 5, 4, [], [7], 0, 1, false⟩ :
        GridIn).abort.closed = true ∧
      (⟨⟨[⟨5, 0, [1, 2]⟩], [⟨6, 4, 0, []⟩]⟩, 5, 4, [], [7], 0, 1, false⟩ :
        GridIn).abort.store.chunks =
        (⟨⟨[⟨5, 0, [1, 2]⟩], [⟨6, 4, 0, []⟩]⟩, 5, 4, [], [7], 0, 1, false⟩ :
          GridIn).store.chunks.filter (fun r => !(r.filesId == 5)) ∧
      (⟨⟨[⟨5, 0, [1, 2]⟩], [⟨6, 4, 0, []⟩]⟩, 5, 4, [], [7], 0, 1, false⟩ :
        GridIn).abort.store.files =
        (⟨⟨[⟨5, 0, [1, 2]⟩], [⟨6, 4, 0, []⟩]⟩, 5, 4, [], [7], 0, 1, false⟩ :
          GridIn).store.files.eraseP (fun d0 => d0.id == 5)) ∧
    ((⟨⟨[⟨5, 0, [1, 2]⟩], [⟨6, 4, 0, []⟩]⟩, 5, 4, [], [7], 0, 1, false⟩ :
        GridIn).buffer = [] →
      (⟨⟨[⟨5, 0, [1, 2]⟩], [⟨6, 4, 0, []⟩]⟩, 5, 4, [], [7], 0, 1, false⟩ :
        GridIn).writeSrc (none :: []) =
        (some .sourceError,
          ⟨⟨[⟨5, 0, [1, 2]⟩], [⟨6, 4, 0, []⟩]⟩, 5, 4, [], [7], 0, 1, false⟩))) :=
  ⟨rfl, C10_sourceAbort ⟨⟨[⟨5, 0, [1, 2]⟩], [⟨6, 4, 0, []⟩]⟩, 5, 4, [], [7], 0, 1, false⟩
    [] rfl⟩
